import Mathlib

/-!
Verification development for the ts-decohere constraint-driven synthesis engine.

The TypeScript sources are shallowly embedded: machine floats are modelled as
exact rationals, JS runtime values as the inductive `JSValue`, JS exceptions as
`Except String`, and the dynamic `new Function` / `vm.Script` compilation step
as an environment parameter `DynEnv` mapping predicate source text to an
evaluatable function (`none` models a compile failure).  JS regular-expression
tests used by the sources are implemented as deterministic character-list
scanners; the character classes involved (`\s`, `[a-z_]`, `[<>=!]`, `\d`) are
disjoint in every pattern concerned, so the greedy regex semantics coincides
with the deterministic scan.  All inputs of interest are ASCII, where the
embedded `toLower`, `trim` and `length` agree with the JS string operations.
-/

set_option maxRecDepth 4000

namespace TsDecohere

/-- JS runtime values (numbers as exact rationals). -/
inductive JSValue where
  | num (q : ℚ)
  | str (s : String)
  | bool (b : Bool)
  | null
  | undef
  | arr (elems : List JSValue)
  | obj (fields : List (String × JSValue))

/-- JS `typeof` operator on the embedded values. -/
def jsTypeof : JSValue → String
  | .num _ => "number"
  | .str _ => "string"
  | .bool _ => "boolean"
  | .null => "object"
  | .undef => "undefined"
  | .arr _ => "object"
  | .obj _ => "object"

/-- JS `Array.isArray`. -/
def jsIsArray : JSValue → Bool
  | .arr _ => true
  | _ => false

/-- Truncation toward zero, as JS integer division truncates. -/
def ratTrunc (q : ℚ) : ℤ :=
  if 0 ≤ q then ⌊q⌋ else -⌊-q⌋

/-- JS remainder operator `a % b` for a positive integer divisor
(sign follows the dividend, truncated division). -/
def jsRem (a : ℚ) (d : ℕ) : ℚ :=
  a - (d : ℚ) * (ratTrunc (a / (d : ℚ)) : ℚ)

/-! ### Character-class scanners modelling the JS regexes

JS `\s` on the ASCII inputs at hand is space, tab, newline, carriage return,
form feed and vertical tab. -/

def isWsChar (c : Char) : Bool :=
  c = ' ' || c = '\t' || c = '\n' || c = '\r' || c = '\x0b' || c = '\x0c'

def isCmpChar (c : Char) : Bool :=
  c = '<' || c = '>' || c = '=' || c = '!'

def isLowerUnd (c : Char) : Bool :=
  ('a' ≤ c && c ≤ 'z') || c = '_'

/-- Drop leading `\s*`. -/
def dropWs : List Char → List Char
  | [] => []
  | c :: cs => if isWsChar c then dropWs cs else c :: cs

/-- Drop a leading run of comparison-class characters (`[<>=!]*`). -/
def dropCmps : List Char → List Char
  | [] => []
  | c :: cs => if isCmpChar c then dropCmps cs else c :: cs

/-- Leading run of decimal digits together with the rest. -/
def spanDigits : List Char → List Char × List Char
  | [] => ([], [])
  | c :: cs =>
    if c.isDigit then
      let (ds, rest) := spanDigits cs
      (c :: ds, rest)
    else ([], c :: cs)

def digitsToNat (ds : List Char) : ℕ :=
  ds.foldl (fun n c => 10 * n + (c.toNat - '0'.toNat)) 0

/-- Parse `-?\d+(\.\d+)?` greedily, returning the exact value (the model of
`parseFloat` on such a literal) and the unconsumed suffix. -/
def parseNumLit (cs : List Char) : Option (ℚ × List Char) :=
  let (neg, cs1) := match cs with
    | '-' :: rest => (true, rest)
    | _ => (false, cs)
  match spanDigits cs1 with
  | ([], _) => none
  | (intDs, rest1) =>
    let intV : ℚ := (digitsToNat intDs : ℚ)
    let (val, rest) := match rest1 with
      | '.' :: rest2 =>
        match spanDigits rest2 with
        | ([], _) => (intV, rest1)
        | (fracDs, rest3) =>
          (intV + (digitsToNat fracDs : ℚ) / ((10 : ℚ) ^ fracDs.length), rest3)
      | _ => (intV, rest1)
    some (if neg then -val else val, rest)

/-- Full-string match of `/^[a-z_]\s*[<>=!]+\s*-?\d+(\.\d+)?$/`. -/
def matchSingleCmp (cs : List Char) : Bool :=
  match cs with
  | [] => false
  | c :: rest =>
    if isLowerUnd c then
      match dropWs rest with
      | [] => false
      | d :: rest2 =>
        if isCmpChar d then
          match parseNumLit (dropWs (dropCmps rest2)) with
          | some (_, []) => true
          | _ => false
        else false
    else false

/-- Prefix match of `/^[a-z_]\s*%\s*\d+\s*===/`. -/
def matchModuloPre (cs : List Char) : Bool :=
  match cs with
  | [] => false
  | c :: rest =>
    if isLowerUnd c then
      match dropWs rest with
      | '%' :: rest2 =>
        match spanDigits (dropWs rest2) with
        | ([], _) => false
        | (_, rest3) =>
          match dropWs rest3 with
          | '=' :: '=' :: '=' :: _ => true
          | _ => false
      | _ => false
    else false

/-- Does `/value\s*[<>=!]+/` match at the head of the list. -/
def valueCmpAt (cs : List Char) : Bool :=
  match cs with
  | 'v' :: 'a' :: 'l' :: 'u' :: 'e' :: rest =>
    match dropWs rest with
    | d :: _ => isCmpChar d
    | [] => false
  | _ => false

/-- Does `/value\s*[<>=!]+/` match anywhere in the list. -/
def containsValueCmp : List Char → Bool
  | [] => false
  | c :: rest => valueCmpAt (c :: rest) || containsValueCmp rest

/-- Substring containment on character lists (JS `String.prototype.includes`). -/
def hasSubstr (needle : List Char) : List Char → Bool
  | [] => needle.isEmpty
  | c :: rest => needle.isPrefixOf (c :: rest) || hasSubstr needle rest

/-! ### tooling/lib/candidate-selector.ts -/

/-- `calculateComplexityScore` from tooling/lib/candidate-selector.ts:
length below 50 scores 1.0, above 500 scores 0.1, linear in between. -/
def calculateComplexityScore (predicateSource : String) : ℚ :=
  if predicateSource.length < 50 then 1
  else if predicateSource.length > 500 then 1 / 10
  else 1 - ((predicateSource.length : ℚ) - 50) / 450 * (9 / 10)

/-- `toLowerCase` on the character list of a string (per-character on the
ASCII inputs at hand, preserving length). -/
def lowerChars (s : String) : List Char :=
  s.toList.map Char.toLower

/-- `calculateReusabilityScore` from tooling/lib/candidate-selector.ts.
The branches mirror the source ordering exactly; matching is performed on the
lowercased source as in the TypeScript. -/
def calculateReusabilityScore (predicateSource : String) : ℚ :=
  if matchSingleCmp (lowerChars predicateSource) then 9 / 10
  else if ("typeof".toList.isPrefixOf (lowerChars predicateSource)) ||
      ("array.isarray".toList.isPrefixOf (lowerChars predicateSource)) then 85 / 100
  else if matchModuloPre (lowerChars predicateSource) then 8 / 10
  else if containsValueCmp (lowerChars predicateSource) &&
      (lowerChars predicateSource).length < 100 then 7 / 10
  else if hasSubstr "&&".toList (lowerChars predicateSource) ||
      hasSubstr "||".toList (lowerChars predicateSource) then 5 / 10
  else if (lowerChars predicateSource).length > 300 then 3 / 10
  else 5 / 10

/-! ### tooling/lib/predicates.ts -/

/-- Trim JS whitespace from both ends of a character list (JS `String.trim`). -/
def trimChars (cs : List Char) : List Char :=
  ((dropWs ((dropWs cs).reverse)).reverse)

/-- JS `String.trim` on strings. -/
def jsTrim (s : String) : String :=
  String.mk (trimChars s.toList)

/-- Parse the single comparison form `x <op> -?\d+(\.\d+)?` where `op` is a
fixed comparator token; mirrors one anchored-test-then-extract regex pair of
`compileSingleLinePredicate`. Returns the parsed threshold on a full match. -/
def parseXCmp (op : List Char) (cs : List Char) : Option ℚ :=
  match cs with
  | 'x' :: rest =>
    let r1 := dropWs rest
    if op.isPrefixOf r1 then
      match parseNumLit (dropWs (r1.drop op.length)) with
      | some (q, []) => some q
      | _ => none
    else none
  | _ => none

/-- Parse `x\s*%\s*\d+\s*===\s*\d+` in full (divisor, remainder). -/
def parseXMod (cs : List Char) : Option (ℕ × ℕ) :=
  match cs with
  | 'x' :: rest =>
    match dropWs rest with
    | '%' :: rest2 =>
      match spanDigits (dropWs rest2) with
      | ([], _) => none
      | (dDs, rest3) =>
        match dropWs rest3 with
        | '=' :: '=' :: '=' :: rest4 =>
          match spanDigits (dropWs rest4) with
          | ([], _) => none
          | (rDs, []) => some (digitsToNat dDs, digitsToNat rDs)
          | _ => none
        | _ => none
    | _ => none
  | _ => none

def typeofNames : List String :=
  ["string", "number", "boolean", "object", "undefined", "symbol", "function"]

/-- Parse `typeof\s+x\s*===\s*"(string|number|...)"` in full. -/
def parseTypeofCheck (cs : List Char) : Option String :=
  if "typeof".toList.isPrefixOf cs then
    match cs.drop 6 with
    | c :: rest =>
      if isWsChar c then
        match dropWs rest with
        | 'x' :: rest2 =>
          match dropWs rest2 with
          | '=' :: '=' :: '=' :: rest3 =>
            match dropWs rest3 with
            | '"' :: rest4 =>
              (typeofNames.filter fun n => rest4 = n.toList ++ ['"']).head?
            | _ => none
          | _ => none
        | _ => none
      else none
    | [] => none
  else none

/-- Parse `x\s*===\s*"[^"]*"` in full, returning the literal. -/
def parseStrLiteralCheck (cs : List Char) : Option String :=
  match cs with
  | 'x' :: rest =>
    match dropWs rest with
    | '=' :: '=' :: '=' :: rest2 =>
      match dropWs rest2 with
      | '"' :: rest3 =>
        let (body, rest4) := rest3.span (fun c => c ≠ '"')
        match rest4 with
        | ['"'] => some (String.mk body)
        | _ => none
      | _ => none
    | _ => none
  | _ => none

/-- `compileSingleLinePredicate` from tooling/lib/predicates.ts: pattern-matches
the eight supported single-line shapes, in source order, over the trimmed
expression, producing a total test closure. -/
def compileSingleLinePredicate (expression : String) : Option (JSValue → Bool) :=
  let t := trimChars expression.toList
  match parseXCmp ['>'] t with
  | some q => some fun v => match v with | .num x => decide (x > q) | _ => false
  | none =>
  match parseXCmp ['<'] t with
  | some q => some fun v => match v with | .num x => decide (x < q) | _ => false
  | none =>
  match parseXCmp ['>', '='] t with
  | some q => some fun v => match v with | .num x => decide (x ≥ q) | _ => false
  | none =>
  match parseXCmp ['<', '='] t with
  | some q => some fun v => match v with | .num x => decide (x ≤ q) | _ => false
  | none =>
  match parseXMod t with
  | some (d, r) =>
    some fun v => match v with
      | .num x => d ≠ 0 && decide (jsRem x d = (r : ℚ))
      | _ => false
  | none =>
  match parseTypeofCheck t with
  | some ty => some fun v => decide (jsTypeof v = ty)
  | none =>
  if t = "Array.isArray(x)".toList then
    some jsIsArray
  else
  match parseStrLiteralCheck t with
  | some lit => some fun v => match v with | .str s => decide (s = lit) | _ => false
  | none => none

/-- Model of dynamic JS compilation (`new Function` / `vm.Script`): maps
predicate source text to an evaluatable function, or `none` on a compile
failure (syntax error or not evaluating to a function).  The produced function
may throw at call time, modelled by `Except String`. -/
def DynEnv : Type := String → Option (JSValue → Except String Bool)

/-- `compilePredicate` from tooling/lib/predicates.ts: single-line compilation
first; otherwise dynamic compilation whose result is guarded by try/catch
(call-time throw yields `false`); on compile failure, constantly `false`.
Every branch yields a total test. -/
def compilePredicateLib (dynEnv : DynEnv) (predicateSource : String) : JSValue → Bool :=
  match compileSingleLinePredicate predicateSource with
  | some f => f
  | none =>
    match dynEnv predicateSource with
    | some fn => fun v => match fn v with | .ok b => b | .error _ => false
    | none => fun _ => false

/-! ### decohere-build.ts predicate compilation and validation -/

/-- Evaluation-level view of a compiled test: a JS function on values that may
in general throw, so its semantics is `Except`-valued. -/
def TestFn : Type := JSValue → Except String Bool

/-- The try/catch wrapper `(value) => { try { return !!fn(value) } catch { return false } }`
installed by `compilePredicate` in decohere-build.ts. -/
def wrapTest (fn : JSValue → Except String Bool) : TestFn :=
  fun v => .ok (match fn v with | .ok b => b | .error _ => false)

/-- `compilePredicate` from decohere-build.ts: compiles the trimmed source in a
fresh vm context; a compile failure (or the script not evaluating to a
function) throws `Failed to compile predicate`; on success the returned test is
guarded by try/catch. -/
def compilePredicateBuild (dynEnv : DynEnv) (predicateSource : String) :
    Except String TestFn :=
  let source := jsTrim predicateSource
  match dynEnv source with
  | some fn => .ok (wrapTest fn)
  | none => .error ("Failed to compile predicate: " ++ source)

inductive ConstraintSource where
  | inferred
  | heuristic
deriving DecidableEq

/-- `Constraint` from decohere-build.ts.  The `test` closure is kept at the
evaluation level (`Except`-valued) so that exception propagation through
`validateValue` is observable in the model. -/
structure Constraint where
  name : String
  description : String
  test : TestFn
  code : Option String
  predicateSource : Option String
  predicateId : Option String
  source : ConstraintSource

inductive ValidationResult where
  | ok
  | failed (errors : List String)

def ValidationResult.isOkB : ValidationResult → Bool
  | .ok => true
  | .failed _ => false

def ValidationResult.errorList : ValidationResult → List String
  | .ok => []
  | .failed es => es

/-- The error-collection loop of `validateValue`, in constraint order. -/
def collectErrors (value : JSValue) : List Constraint → List String →
    Except String (List String)
  | [], errors => .ok errors
  | c :: rest, errors => do
    let pass ← c.test value
    collectErrors value rest (if pass then errors else errors ++ [c.description])

/-- `validateValue` from decohere-build.ts: runs every constraint test against
the value and collects the description of each failing constraint.  A test that
throws propagates its exception out of `validateValue` (there is no try/catch
in the source), which the `Except` layer records. -/
def validateValue (constraints : List Constraint) (value : JSValue) :
    Except String ValidationResult := do
  let errors ← collectErrors value constraints []
  pure (if errors.length > 0 then .failed errors else .ok)

/-! ### Candidate scoring pipeline (tooling/lib/candidate-selector.ts) -/

/-- `HeuristicDefinition` from tooling/lib/types.ts. -/
structure HeuristicDefinition where
  name : String
  description : String
  predicate : String
deriving DecidableEq

structure CandidateScore where
  candidate : HeuristicDefinition
  complexityScore : ℚ
  coverageScore : ℚ
  reusabilityScore : ℚ
  totalScore : ℚ
  reasoning : List String

/-- One pass of the coverage loops: for each test value the candidate predicate
is evaluated once, `passedCount` increments when it passes, and `matchedCount`
increments for every constraint whose own test also passes on that value.  A
constraint test that throws aborts with the exception (caught by the caller). -/
def coverageCounts (predicate : JSValue → Bool) (constraints : List Constraint)
    (testValues : List JSValue) : Except String (ℕ × ℕ) :=
  testValues.foldlM (fun (counts : ℕ × ℕ) tv => do
    let p := predicate tv
    let passed := if p then counts.2 + 1 else counts.2
    let matched ← constraints.foldlM (fun (m : ℕ) c => do
      let ct ← c.test tv
      pure (if ct && p then m + 1 else m)) counts.1
    pure (matched, passed)) (0, 0)

/-- `calculateCoverageScore` from tooling/lib/candidate-selector.ts.  With no
constraints or no sample values the score is the neutral 0.5; otherwise the
agreement counts are normalized by `constraints × samples × 1.5`; any exception
inside the block (a throwing constraint test) is caught and scores 0.1. -/
def calculateCoverageScore (dynEnv : DynEnv) (predicateSource : String)
    (constraints : List Constraint) (testValues : List JSValue) : ℚ :=
  if constraints.length = 0 ∨ testValues.length = 0 then 1 / 2
  else
    let predicate := compilePredicateLib dynEnv predicateSource
    match coverageCounts predicate constraints testValues with
    | .error _ => 1 / 10
    | .ok (matchedCount, passedCount) =>
      let maxScore : ℚ := (constraints.length : ℚ) * (testValues.length : ℚ)
      if matchedCount > 0 then
        min 1 (((matchedCount : ℚ) + (passedCount : ℚ)) / (maxScore * (3 / 2)))
      else 1 / 5

structure Weights where
  complexity : ℚ
  coverage : ℚ
  reusability : ℚ

def defaultWeights : Weights := ⟨3 / 10, 4 / 10, 3 / 10⟩

/-- `scoreCandidate` from tooling/lib/candidate-selector.ts. -/
def scoreCandidate (dynEnv : DynEnv) (candidate : HeuristicDefinition)
    (constraints : List Constraint) (testValues : List JSValue)
    (weights : Weights) : CandidateScore :=
  let complexityScore := calculateComplexityScore candidate.predicate
  let coverageScore := calculateCoverageScore dynEnv candidate.predicate constraints testValues
  let reusabilityScore := calculateReusabilityScore candidate.predicate
  let totalScore :=
    complexityScore * weights.complexity +
    coverageScore * weights.coverage +
    reusabilityScore * weights.reusability
  let reasoning :=
    (if complexityScore > 8 / 10 then ["Very simple predicate"]
     else if complexityScore < 3 / 10 then ["Complex predicate"] else []) ++
    (if coverageScore > 7 / 10 then ["Good constraint coverage"]
     else if coverageScore < 3 / 10 then ["Limited constraint coverage"] else []) ++
    (if reusabilityScore > 7 / 10 then ["Highly reusable pattern"]
     else if reusabilityScore < 4 / 10 then ["Low reusability"] else [])
  { candidate, complexityScore, coverageScore, reusabilityScore, totalScore, reasoning }

/-- `rankCandidates`: score then stable sort descending by `totalScore`
(JS `Array.prototype.sort` is stable, as is insertion sort). -/
def rankCandidates (dynEnv : DynEnv) (candidates : List HeuristicDefinition)
    (constraints : List Constraint) (testValues : List JSValue) : List CandidateScore :=
  (candidates.map (fun c => scoreCandidate dynEnv c constraints testValues defaultWeights)).insertionSort
    (fun a b => b.totalScore ≤ a.totalScore)

/-- `isConfidentCandidate`: pure threshold test on the total score. -/
def isConfidentCandidate (score : CandidateScore) (threshold : ℚ) : Bool :=
  score.totalScore ≥ threshold

/-! ### Predicate registry (decohere-build.ts globals)

A JS `Record<string, T>` is modelled as an insertion-ordered association list
with unique keys: assignment to an existing key replaces the value in place,
assignment to a fresh key appends. -/

def objSet {α : Type} (m : List (String × α)) (k : String) (v : α) : List (String × α) :=
  match m with
  | [] => [(k, v)]
  | (k2, v2) :: rest => if k2 = k then (k, v) :: rest else (k2, v2) :: objSet rest k v

def objGet {α : Type} (m : List (String × α)) (k : String) : Option α :=
  (m.find? (fun p => p.1 = k)).map (·.2)

def objValues {α : Type} (m : List (String × α)) : List α := m.map (·.2)

structure PredicateRegistryEntry where
  id : String
  name : String
  description : String
  predicateSource : String
deriving DecidableEq

def PredicateRegistry : Type := List (String × PredicateRegistryEntry)

/-- `sanitizeIdentifier` as defined locally in decohere-build.ts (lines
1561-1565): non-identifier characters become underscores, a leading digit gets
an underscore, and an empty result falls back to `constraint`. -/
def sanitizeIdentifier (raw : String) : String :=
  let cleaned := raw.toList.map (fun c => if c.isAlpha || c.isDigit || c = '_' then c else '_')
  let noLeadingDigit := match cleaned with
    | c :: _ => if c.isDigit then '_' :: cleaned else cleaned
    | [] => cleaned
  if noLeadingDigit.isEmpty then "constraint" else String.mk noLeadingDigit

/-- `registerConstraintPredicate` from decohere-build.ts: hashes the trimmed
predicate source into a content id, inserts a new entry or replaces an entry
whose metadata differs (marking the registry dirty), and stamps the id onto the
constraint.  `hash` abstracts `hashText` (SHA-256 hex). -/
def registerConstraintPredicate (hash : String → String) (c : Constraint)
    (reg : PredicateRegistry) (dirty : Bool) : Constraint × PredicateRegistry × Bool :=
  match c.predicateSource with
  | none => (c, reg, dirty)
  | some src0 =>
    let source := jsTrim src0
    if source = "" then (c, reg, dirty)
    else
      let id := hash source
      let entry : PredicateRegistryEntry :=
        { id, name := c.name, description := c.description, predicateSource := source }
      match objGet reg id with
      | none => ({ c with predicateId := some id }, objSet reg id entry, true)
      | some existing =>
        if existing.name ≠ c.name ∨ existing.description ≠ c.description ∨
            existing.predicateSource ≠ source then
          ({ c with predicateId := some id }, objSet reg id entry, true)
        else
          ({ c with predicateId := some id }, reg, dirty)

/-! ### compileHeuristics (decohere-build.ts lines 1760-1791) -/

/-- The effective predicate source of a heuristic definition: the falsy-default
`def.predicate || "(value) => Boolean(value)"`, trimmed. -/
def effectiveSource (d : HeuristicDefinition) : String :=
  jsTrim (if d.predicate = "" then "(value) => Boolean(value)" else d.predicate)

def effectiveDescription (d : HeuristicDefinition) : String :=
  if d.description = "" then "Heuristic predicate" else d.description

/-- The effective name of a heuristic definition after sanitization. -/
def heuristicName (d : HeuristicDefinition) : String :=
  sanitizeIdentifier (if d.name = "" then "heuristic" else d.name)

/-- The constraint built from one heuristic definition and its compiled test. -/
def heuristicConstraint (predicate : TestFn) (d : HeuristicDefinition) : Constraint :=
  { name := heuristicName d, description := effectiveDescription d, test := predicate,
    predicateSource := some (effectiveSource d),
    code := some ("export const " ++ heuristicName d ++ " = " ++ effectiveSource d ++ ";"),
    predicateId := none, source := .heuristic }

/-- The normalized definition recorded for one heuristic definition. -/
def normalizedHeuristic (d : HeuristicDefinition) : HeuristicDefinition :=
  { name := heuristicName d, description := effectiveDescription d,
    predicate := effectiveSource d }

/-- The loop body of `compileHeuristics`, processing definitions in order.
`compilePredicateBuild` is called with no surrounding try/catch, so a compile
failure propagates as the `Except` error and abandons the remaining
definitions, exactly as the thrown JS exception would; registry mutations made
for the definitions already processed persist (global state in the source) and
are therefore threaded through both outcomes. -/
def compileHeuristicsGo (dynEnv : DynEnv) (hash : String → String) :
    List HeuristicDefinition → PredicateRegistry → Bool →
    Except String (List Constraint × List HeuristicDefinition) × PredicateRegistry × Bool
  | [], reg, dirty => (.ok ([], []), reg, dirty)
  | d :: rest, reg, dirty =>
    match compilePredicateBuild dynEnv (effectiveSource d) with
    | .error e => (.error e, reg, dirty)
    | .ok predicate =>
      match registerConstraintPredicate hash (heuristicConstraint predicate d) reg dirty with
      | (c, reg2, dirty2) =>
        match compileHeuristicsGo dynEnv hash rest reg2 dirty2 with
        | (.error e, reg3, dirty3) => (.error e, reg3, dirty3)
        | (.ok (cs, ns), reg3, dirty3) =>
          (.ok (c :: cs, normalizedHeuristic d :: ns), reg3, dirty3)

/-- `compileHeuristics` from decohere-build.ts: compiles every oracle-discovered
heuristic definition into a constraint, registering each predicate.  Returns
the constraints and the normalized definitions alongside the threaded registry
state; a compile failure is the propagated exception. -/
def compileHeuristics (dynEnv : DynEnv) (hash : String → String)
    (reg : PredicateRegistry) (dirty : Bool)
    (definitions : Option (List HeuristicDefinition)) :
    Except String (List Constraint × List HeuristicDefinition) × PredicateRegistry × Bool :=
  match definitions with
  | none => (.ok ([], []), reg, dirty)
  | some defs =>
    if defs.isEmpty then (.ok ([], []), reg, dirty)
    else compileHeuristicsGo dynEnv hash defs reg dirty

/-- `mergeHeuristicDefs`: last writer wins by `name`, JS `Map` insertion order. -/
def mergeHeuristicDefs (existing additions : List HeuristicDefinition) :
    List HeuristicDefinition :=
  objValues (additions.foldl (fun m d => objSet m d.name d)
    (existing.foldl (fun m d => objSet m d.name d) []))

/-- `mergeConstraintSets`: last writer wins by `name`, JS `Map` insertion order. -/
def mergeConstraintSets (existing additions : List Constraint) : List Constraint :=
  objValues (additions.foldl (fun m c => objSet m c.name c)
    (existing.foldl (fun m c => objSet m c.name c) []))

/-! ### Audit trail (tooling/lib/audit.ts)

Timestamps (`new Date().toISOString()`) are passed in as an explicit `now`
string.  The free-form `details` payload of the append-only `entries` stream is
untyped JS; the entries are modelled with their typed discriminator and key. -/

inductive AuditEntryType where
  | predicate_discovered
  | candidate_ranked
  | candidate_selected
  | validation_passed
  | validation_failed
deriving DecidableEq

structure AuditEntry where
  timestamp : String
  type : AuditEntryType
  typeText : String
deriving DecidableEq

structure PredicateAudit where
  predicateId : String
  name : String
  discoveredAt : String
  discoveredFrom : String
  confidence : ℚ
  usageCount : ℕ
  lastUsedAt : Option String
  context : Option String
deriving DecidableEq

structure CandidateRanking where
  rank : ℕ
  name : String
  totalScore : ℚ
  complexityScore : ℚ
  coverageScore : ℚ
  reusabilityScore : ℚ
  reasoning : List String
deriving DecidableEq

structure CandidateSelectionAudit where
  attempt : ℕ
  candidateRankings : List CandidateRanking
  selectedIndex : ℕ
  selectedName : String
  selectedScore : ℚ
  confidence : ℚ
  selectionReason : String
deriving DecidableEq

structure ValidationAudit where
  attempt : ℕ
  valid : Bool
  errors : Option (List String)
  feedback : Option String
deriving DecidableEq

structure AuditLog where
  entries : List AuditEntry
  predicateAudits : List (String × PredicateAudit)
  candidateAudits : List (String × List CandidateSelectionAudit)
  validationAudits : List (String × List ValidationAudit)

def emptyAuditLog : AuditLog := ⟨[], [], [], []⟩

/-- Append a value to the list stored at a key (creating the key). -/
def mapAppendAt {α : Type} (m : List (String × List α)) (k : String) (v : α) :
    List (String × List α) :=
  match objGet m k with
  | some xs => objSet m k (xs ++ [v])
  | none => objSet m k [v]

/-- `AuditLog.recordPredicateDiscovery`: first discovery creates the audit with
`usageCount = 1`; a rediscovery increments `usageCount`, refreshes `lastUsedAt`
and raises `confidence` only if the new value is strictly greater. -/
def recordPredicateDiscovery (log : AuditLog) (now predicateId name discoveredFrom : String)
    (confidence : ℚ) (context : Option String) : AuditLog :=
  let predicateAudits :=
    match objGet log.predicateAudits predicateId with
    | some existing =>
      objSet log.predicateAudits predicateId
        { existing with
          usageCount := existing.usageCount + 1,
          lastUsedAt := some now,
          confidence := if confidence > existing.confidence then confidence
                        else existing.confidence }
    | none =>
      objSet log.predicateAudits predicateId
        { predicateId, name, discoveredAt := now, discoveredFrom, confidence,
          usageCount := 1, lastUsedAt := some now, context }
  { log with
    predicateAudits,
    entries := log.entries ++ [⟨now, .predicate_discovered, discoveredFrom⟩] }

/-- `AuditLog.recordCandidateSelection`: reads `scores[selectedIndex]` (a JS
`TypeError` if out of range, modelled as the `Except` error), builds the ranked
snapshot and appends it under the bundle key. -/
def recordCandidateSelection (log : AuditLog) (now typeText : String) (attempt : ℕ)
    (scores : List CandidateScore) (selectedIndex : ℕ) (confidence : ℚ)
    (selectionReason : String) : Except String AuditLog :=
  match scores.get? selectedIndex with
  | none => .error "TypeError: cannot read properties of undefined"
  | some selectedScore =>
    let ranking := scores.mapIdx (fun rank s =>
      { rank := rank + 1, name := s.candidate.name, totalScore := s.totalScore,
        complexityScore := s.complexityScore, coverageScore := s.coverageScore,
        reusabilityScore := s.reusabilityScore, reasoning := s.reasoning
        : CandidateRanking })
    let audit : CandidateSelectionAudit :=
      { attempt, candidateRankings := ranking, selectedIndex,
        selectedName := selectedScore.candidate.name,
        selectedScore := selectedScore.totalScore, confidence, selectionReason }
    .ok { log with
      candidateAudits := mapAppendAt log.candidateAudits typeText audit,
      entries := log.entries ++ [⟨now, .candidate_selected, typeText⟩] }

/-- `AuditLog.recordValidation`: appends a `ValidationAudit` under the bundle
key and an entry typed by the outcome. -/
def recordValidation (log : AuditLog) (now typeText : String) (attempt : ℕ)
    (valid : Bool) (errors : Option (List String)) (feedback : Option String) : AuditLog :=
  { log with
    validationAudits := mapAppendAt log.validationAudits typeText
      { attempt, valid, errors, feedback },
    entries := log.entries ++
      [⟨now, if valid then .validation_passed else .validation_failed, typeText⟩] }

def getCandidateAudits (log : AuditLog) (typeText : String) : List CandidateSelectionAudit :=
  (objGet log.candidateAudits typeText).getD []

def getValidationAudits (log : AuditLog) (typeText : String) : List ValidationAudit :=
  (objGet log.validationAudits typeText).getD []

/-! ### Synthesis orchestrator (decohere-build.ts `synthesizeValue`)

The oracle transport (`callLLM`) either yields a parsed response or throws
(error from the API, empty response, or a JSON parse failure); it is modelled
as `oracle : attempt → feedback → Except String LLMResponseM`.  Prompt string
construction is elided: it is pure string building whose only consumer is the
oracle, which the model quantifies over.  Numeric log formatting
(`toFixed(1)`) is abstracted by `fmtPct`; it only affects free-text reason and
feedback strings, never a decision. -/

structure CandidateValidator where
  name : Option String
  description : Option String
  predicate : String

structure LLMResponseM where
  value : JSValue
  heuristics : Option (List HeuristicDefinition)
  explanation : Option String
  candidateValidators : Option (List CandidateValidator)

structure AttemptRecord where
  attempt : ℕ
  model : String
  feedback : String
  explanation : Option String

structure CandidateScoreSnapshot where
  name : String
  totalScore : ℚ
  complexityScore : ℚ
  coverageScore : ℚ
  reusabilityScore : ℚ

/-- The `candidateSelectionAudit` stored in the cache entry. -/
structure CacheCandidateAudit where
  attempt : ℕ
  selectedCandidateIndex : ℕ
  selectedCandidateName : String
  candidateScores : List CandidateScoreSnapshot
  confidence : ℚ
  selectionReason : String

structure MaterializeSuccess where
  value : JSValue
  model : String
  attempts : List AttemptRecord
  heuristics : List HeuristicDefinition
  constraints : List Constraint
  candidateValidators : List (List HeuristicDefinition)
  candidateSelectionAudit : Option CacheCandidateAudit

inductive SynthErr where
  | oracleError (msg : String)
  | auditError (msg : String)
  | compileError (msg : String)
  | validationThrow (msg : String)
  | exhausted (typeText : String) (maxAttempts : ℕ)

def fmtPct (q : ℚ) : String := toString (q * 100)

structure SynthCfg where
  dynEnv : DynEnv
  hash : String → String
  openaiOn : Bool
  typeText : String
  maxAttempts : ℕ
  oracle : ℕ → String → Except String LLMResponseM
  now : String

structure SynthState where
  attempts : List AttemptRecord
  feedback : String
  accumulatedConstraints : List Constraint
  accumulatedHeuristics : List HeuristicDefinition
  reg : PredicateRegistry
  dirty : Bool
  log : AuditLog

/-- The candidate name default `candidate.name || "candidate_" ++ (index+1)`. -/
def candidateName (index : ℕ) (c : CandidateValidator) : String :=
  match c.name with
  | some n => if n = "" then "candidate_" ++ toString (index + 1) else n
  | none => "candidate_" ++ toString (index + 1)

def candidateDescription (c : CandidateValidator) : String :=
  match c.description with
  | some d => if d = "" then "Candidate validator" else d
  | none => "Candidate validator"

/-- The candidate-ranking block of the attempt body (lines 2122-2186): converts
response candidates, ranks them with no sample values, records the selection
and possibly downgrades the feedback when the best score is below the 0.6
confidence threshold. -/
def rankPhase (cfg : SynthCfg) (attempt : ℕ) (st : SynthState)
    (candidateValidators : List CandidateValidator) :
    Except String (List (List HeuristicDefinition) × Option CacheCandidateAudit ×
      String × AuditLog) :=
  if candidateValidators.isEmpty then .ok ([], none, st.feedback, st.log)
  else
    let candidates : List HeuristicDefinition := candidateValidators.mapIdx (fun index c =>
      { name := sanitizeIdentifier (candidateName index c),
        description := candidateDescription c, predicate := c.predicate })
    let ranked := rankCandidates cfg.dynEnv candidates st.accumulatedConstraints []
    match ranked with
    | [] => .ok ([], none, st.feedback, st.log)
    | best :: _ =>
      let isConf := isConfidentCandidate best (3 / 5)
      let selectionReason :=
        if isConf then "High confidence (" ++ fmtPct best.totalScore ++ "%)"
        else "Best of available (" ++ fmtPct best.totalScore ++ "% confidence)"
      match recordCandidateSelection st.log cfg.now cfg.typeText attempt ranked 0
          best.totalScore selectionReason with
      | .error e => .error e
      | .ok log2 =>
        let audit : CacheCandidateAudit :=
          { attempt, selectedCandidateIndex := 0,
            selectedCandidateName := best.candidate.name,
            candidateScores := ranked.map (fun s =>
              { name := s.candidate.name, totalScore := s.totalScore,
                complexityScore := s.complexityScore, coverageScore := s.coverageScore,
                reusabilityScore := s.reusabilityScore }),
            confidence := best.totalScore, selectionReason }
        let feedback2 :=
          if isConf then st.feedback
          else "Best candidate only " ++ fmtPct best.totalScore ++
            "% confident. Try other approaches."
        .ok (ranked.map (fun s => [s.candidate]), some audit, feedback2, log2)

def infeasibleFeedback : String :=
  "The constraint set is satisfiable. Please generalize beyond given examples and try another candidate."

def validationFeedback (errorSummary : String) : String :=
  "Validation failed: " ++ errorSummary ++
  ". Produce an even number greater than any thresholds while respecting inferred patterns; do not restrict to the literal sample values."

/-- One-past-the-throw state is returned alongside the result: mutations to the
global audit log, registry and accumulated sets survive a thrown exception in
the source, so the loop returns the state in every outcome.  The final `ℕ`
counts the `callLLM` invocations performed (exactly one per loop iteration). -/
def synthLoop (cfg : SynthCfg) :
    ℕ → ℕ → SynthState → Except SynthErr MaterializeSuccess × SynthState × ℕ
  | _, 0, st => (.error (.exhausted cfg.typeText cfg.maxAttempts), st, 0)
  | attempt, fuel + 1, st =>
    match cfg.oracle attempt st.feedback with
    | .error e => (.error (.oracleError e), st, 1)
    | .ok response =>
      let model := if cfg.openaiOn then "gpt-4.1-mini" else "unknown"
      if response.explanation = some "__INFEASIBLE__" then
        let st2 := { st with
          attempts := st.attempts ++ [⟨attempt, model, st.feedback, response.explanation⟩],
          log := recordValidation st.log cfg.now cfg.typeText attempt false
            (some ["Infeasible"]) (some "Constraint set appears infeasible"),
          feedback := infeasibleFeedback }
        let (res, stf, calls) := synthLoop cfg (attempt + 1) fuel st2
        (res, stf, calls + 1)
      else
        match rankPhase cfg attempt st (response.candidateValidators.getD []) with
        | .error e => (.error (.auditError e), st, 1)
        | .ok (rankedCandidates, candidateSelectionAudit, feedback2, log2) =>
          let st2 := { st with feedback := feedback2, log := log2 }
          match compileHeuristics cfg.dynEnv cfg.hash st2.reg st2.dirty response.heuristics with
          | (.error e, reg2, dirty2) =>
            (.error (.compileError e), { st2 with reg := reg2, dirty := dirty2 }, 1)
          | (.ok (heuristicConstraints, normalized), reg2, dirty2) =>
            let accumulatedConstraints :=
              mergeConstraintSets st2.accumulatedConstraints heuristicConstraints
            let accumulatedHeuristics :=
              mergeHeuristicDefs st2.accumulatedHeuristics normalized
            let candidates : List (List HeuristicDefinition) :=
              if rankedCandidates.length > 0 then rankedCandidates else [normalized]
            let st3 := { st2 with
              accumulatedConstraints := accumulatedConstraints,
              accumulatedHeuristics := accumulatedHeuristics,
              reg := reg2, dirty := dirty2 }
            match validateValue accumulatedConstraints response.value with
            | .error msg => (.error (.validationThrow msg), st3, 1)
            | .ok vres =>
              if vres.isOkB then
                let st4 := { st3 with
                  log := recordValidation st3.log cfg.now cfg.typeText attempt true none none,
                  attempts := st3.attempts ++
                    [⟨attempt, model, st3.feedback, response.explanation⟩] }
                let success : MaterializeSuccess :=
                  { value := response.value, model := model, attempts := st4.attempts,
                    heuristics := accumulatedHeuristics,
                    constraints := accumulatedConstraints,
                    candidateValidators := candidates,
                    candidateSelectionAudit := candidateSelectionAudit }
                (.ok success, st4, 1)
              else
                let errorSummary := String.intercalate "; " vres.errorList
                let st4 := { st3 with
                  attempts := st3.attempts ++
                    [⟨attempt, model, st3.feedback, response.explanation⟩],
                  log := recordValidation st3.log cfg.now cfg.typeText attempt false
                    (some vres.errorList) none,
                  feedback := validationFeedback errorSummary }
                let (res, stf, calls) := synthLoop cfg (attempt + 1) fuel st4
                (res, stf, calls + 1)

/-- `synthesizeValue` from decohere-build.ts: the attempt loop from 1 to
`maxAttempts`; exhaustion throws the terminal error naming the bundle and the
attempt count. -/
def synthesizeValue (cfg : SynthCfg) (baseConstraints : List Constraint)
    (existingHeuristics : List HeuristicDefinition) (reg : PredicateRegistry)
    (dirty : Bool) (log : AuditLog) :
    Except SynthErr MaterializeSuccess × SynthState × ℕ :=
  synthLoop cfg 1 cfg.maxAttempts
    { attempts := [], feedback := "", accumulatedConstraints := baseConstraints,
      accumulatedHeuristics := existingHeuristics, reg, dirty, log }

/-! ### Cache manager (tooling/lib/cache-manager.ts)

`CacheAudit` keeps the fields the regeneration report reads; filesystem
metadata (timestamps, sizes) and the in-place mutation of `audit.confidence`
during the report loop are not observed by any operation modelled here.  The
wall-clock `regenerationTime` field is likewise omitted. -/

structure CacheAudit where
  path : String
  typeText : String
  confidence : ℚ
deriving DecidableEq

inductive RegenAction where
  | preserve
  | regenerate
  | unknown
deriving DecidableEq

structure RegenDetail where
  typeText : String
  cacheKey : String
  action : RegenAction
  reason : String
  confidence : Option ℚ
deriving DecidableEq

structure RegenerationReport where
  totalCacheEntries : ℕ
  entriesChecked : ℕ
  entriesPreserved : ℕ
  entriesMarkedForRegeneration : ℕ
  highConfidencePreserved : ℕ
  averageConfidence : ℚ
  details : List RegenDetail
deriving DecidableEq

/-- Split a character list on a separator (JS `String.split` with a one-char
separator). -/
def splitOnChar (sep : Char) : List Char → List (List Char)
  | [] => [[]]
  | c :: rest =>
    match splitOnChar sep rest with
    | fs :: others => if c = sep then [] :: fs :: others else (c :: fs) :: others
    | [] => if c = sep then [[], []] else [[c]]

/-- `audit.path.split("/").pop() || "unknown"`. -/
def cacheKeyOf (path : String) : String :=
  let last := ((splitOnChar '/' path.toList).getLastD [])
  if last.isEmpty then "unknown" else String.mk last

/-- The loop body of `generateRegenerationReport` for one cache audit entry,
producing its detail row.  The most recent `CandidateSelectionAudit` is
`candidateAudits[candidateAudits.length - 1]`. -/
def regenDetailFor (log : AuditLog) (confidenceThreshold highConfidenceThreshold : ℚ)
    (audit : CacheAudit) : RegenDetail :=
  match (getCandidateAudits log audit.typeText).getLast? with
  | some latest =>
    if latest.confidence ≥ highConfidenceThreshold then
      { typeText := audit.typeText, cacheKey := cacheKeyOf audit.path, action := .preserve,
        reason := "High confidence (" ++ fmtPct latest.confidence ++ "%)",
        confidence := some latest.confidence }
    else if latest.confidence ≥ confidenceThreshold then
      { typeText := audit.typeText, cacheKey := cacheKeyOf audit.path, action := .preserve,
        reason := "Meets confidence threshold (" ++ fmtPct latest.confidence ++ "%)",
        confidence := some latest.confidence }
    else
      { typeText := audit.typeText, cacheKey := cacheKeyOf audit.path, action := .regenerate,
        reason := "Low confidence (" ++ fmtPct latest.confidence ++ "%)",
        confidence := some latest.confidence }
  | none =>
    { typeText := audit.typeText, cacheKey := cacheKeyOf audit.path, action := .unknown,
      reason := "No candidate selection audit found", confidence := none }

/-- The counter/detail accumulation of the report loop, processed in order. -/
def regenLoop (log : AuditLog) (confidenceThreshold highConfidenceThreshold : ℚ) :
    List CacheAudit → List RegenDetail × ℕ × ℕ × ℕ × ℚ
  | [] => ([], 0, 0, 0, 0)
  | audit :: rest =>
    let (details, preserved, regen, highConf, totalConf) :=
      regenLoop log confidenceThreshold highConfidenceThreshold rest
    let d := regenDetailFor log confidenceThreshold highConfidenceThreshold audit
    match (getCandidateAudits log audit.typeText).getLast? with
    | some latest =>
      if latest.confidence ≥ highConfidenceThreshold then
        (d :: details, preserved + 1, regen, highConf + 1, totalConf + latest.confidence)
      else if latest.confidence ≥ confidenceThreshold then
        (d :: details, preserved + 1, regen, highConf, totalConf + latest.confidence)
      else
        (d :: details, preserved, regen + 1, highConf, totalConf + latest.confidence)
    | none =>
      (d :: details, preserved, regen + 1, highConf, totalConf)

/-- `CacheManager.generateRegenerationReport`: classifies every cache audit by
the confidence of the most recent `CandidateSelectionAudit` for its bundle
identity, against the manager thresholds (defaults 0.75 and 0.9). -/
def generateRegenerationReport (log : AuditLog)
    (confidenceThreshold highConfidenceThreshold : ℚ)
    (cacheAudits : List CacheAudit) : RegenerationReport :=
  let (details, preserved, regen, highConf, totalConf) :=
    regenLoop log confidenceThreshold highConfidenceThreshold cacheAudits
  { totalCacheEntries := cacheAudits.length,
    entriesChecked := cacheAudits.length,
    entriesPreserved := preserved,
    entriesMarkedForRegeneration := regen,
    highConfidencePreserved := highConf,
    averageConfidence := if cacheAudits.length > 0 then totalConf / (cacheAudits.length : ℚ) else 0,
    details := details }

/-! ### Registry persistence (decohere-build.ts lines 498-542, 607-615)

`entries.sort((a, b) => a.id.localeCompare(b.id))`: the ids are lowercase hex
SHA-256 digests, on which `localeCompare` agrees with code-point order, so the
comparator is modelled by the linear order on strings.  JS `Array.sort` is
stable, as is `insertionSort`.  `JSON.stringify(entries, null, 2)` is modelled
by a deterministic serializer (string escaping is elided; only determinism of
the byte output as a function of the entry list is relevant). -/

@[reducible] def entryIdLe (a b : PredicateRegistryEntry) : Prop := a.id ≤ b.id

instance : DecidableRel entryIdLe := fun a b => inferInstanceAs (Decidable (a.id ≤ b.id))

instance : IsTotal PredicateRegistryEntry entryIdLe := ⟨fun a b => le_total a.id b.id⟩

instance : IsTrans PredicateRegistryEntry entryIdLe := ⟨fun _ _ _ h1 h2 => le_trans h1 h2⟩

def sortById (entries : List PredicateRegistryEntry) : List PredicateRegistryEntry :=
  entries.insertionSort entryIdLe

def jsonStr (s : String) : String := "\"" ++ s ++ "\""

def renderEntry (e : PredicateRegistryEntry) : String :=
  "  \x7b\n    \"id\": " ++ jsonStr e.id ++ ",\n    \"name\": " ++ jsonStr e.name ++
  ",\n    \"description\": " ++ jsonStr e.description ++
  ",\n    \"predicateSource\": " ++ jsonStr e.predicateSource ++ "\n  \x7d"

def renderEntries (entries : List PredicateRegistryEntry) : String :=
  if entries.isEmpty then "[]"
  else "[\n" ++ String.intercalate ",\n" (entries.map renderEntry) ++ "\n]"

/-- `writePredicateRegistryFile`: the registry file contents written for a
registry state — values of the record, sorted by id, serialized. -/
def writePredicateRegistryFile (reg : PredicateRegistry) : String :=
  renderEntries (sortById (objValues reg))

/-- `writePredicateIndex`: the generated index module, also over the id-sorted
entries.  Only the entry-dependent lines are rendered; the fixed boilerplate
around them is a constant prefix/suffix in the source. -/
def writePredicateIndex (reg : PredicateRegistry) : String :=
  let entries := sortById (objValues reg)
  String.intercalate "\n" (entries.map (fun e =>
    jsonStr e.id ++ ": \x7b test: " ++ e.predicateSource ++ " \x7d"))

structure RegFiles where
  registryFile : Option String
  indexFile : Option String
deriving DecidableEq

structure RegState where
  registry : PredicateRegistry
  dirty : Bool
  files : RegFiles

/-- `persistPredicateRegistry`: a no-op unless dirty; otherwise writes the
registry file and the index file and clears the dirty flag. -/
def persistPredicateRegistry (s : RegState) : RegState :=
  if ¬s.dirty then s
  else
    { registry := s.registry, dirty := false,
      files := { registryFile := some (writePredicateRegistryFile s.registry),
                 indexFile := some (writePredicateIndex s.registry) } }

/-! ### Example deduplication helpers (decohere-build.ts local versions) -/

def dedupRats (xs : List ℚ) : List ℚ :=
  xs.foldl (fun acc v => if acc.contains v then acc else acc ++ [v]) []

/-- `dedupeNumberList` (decohere-build.ts): finite numbers, set-deduplicated,
sorted ascending.  Every rational models a finite JS number. -/
def dedupeNumberList (xs : List ℚ) : List ℚ :=
  (dedupRats xs).insertionSort (· ≤ ·)

def sortFieldsByKey (fields : List (String × JSValue)) : List (String × JSValue) :=
  fields.insertionSort (fun a b => a.1 ≤ b.1)

mutual
/-- `normalizeForDedup` (decohere-build.ts): object keys sorted recursively.
The source sorts entries before normalizing the values; since sorting compares
keys only, normalizing first is the same function. -/
def normalizeForDedup : JSValue → JSValue
  | .arr xs => .arr (normalizeForDedupList xs)
  | .obj fields => .obj (sortFieldsByKey (normalizeForDedupFields fields))
  | .num q => .num q
  | .str s => .str s
  | .bool b => .bool b
  | .null => .null
  | .undef => .undef

def normalizeForDedupList : List JSValue → List JSValue
  | [] => []
  | v :: rest => normalizeForDedup v :: normalizeForDedupList rest

def normalizeForDedupFields : List (String × JSValue) → List (String × JSValue)
  | [] => []
  | (k, v) :: rest => (k, normalizeForDedup v) :: normalizeForDedupFields rest
end

mutual
/-- Deterministic serializer modelling `JSON.stringify` (string escaping and JS
float formatting elided; only determinism of the output matters for dedup
keys). -/
def jsonRender : JSValue → String
  | .num q => toString q
  | .str s => "\"" ++ s ++ "\""
  | .bool b => if b then "true" else "false"
  | .null => "null"
  | .undef => "undefined"
  | .arr xs => "[" ++ jsonRenderList xs ++ "]"
  | .obj fields => "\x7b" ++ jsonRenderFields fields ++ "\x7d"

def jsonRenderList : List JSValue → String
  | [] => ""
  | [v] => jsonRender v
  | v :: rest => jsonRender v ++ "," ++ jsonRenderList rest

def jsonRenderFields : List (String × JSValue) → String
  | [] => ""
  | [(k, v)] => "\"" ++ k ++ "\":" ++ jsonRender v
  | (k, v) :: rest => "\"" ++ k ++ "\":" ++ jsonRender v ++ "," ++ jsonRenderFields rest
end

/-- `stableStringify` (decohere-build.ts). -/
def stableStringify (v : JSValue) : String :=
  jsonRender (normalizeForDedup v)

/-- `dedupeObjectList` (decohere-build.ts): set-dedup by stable signature,
preserving order. -/
def dedupeObjectList (xs : List JSValue) : List JSValue :=
  xs.foldl (fun acc v =>
    if (acc.map stableStringify).contains (stableStringify v) then acc else acc ++ [v]) []

mutual
/-- The value identity of a JSON round trip `JSON.parse(JSON.stringify(v))`:
`undefined` fields are dropped from objects and become `null` in arrays;
a top-level `undefined` yields no JSON at all. -/
def jsonNormalize : JSValue → Option JSValue
  | .undef => none
  | .num q => some (.num q)
  | .str s => some (.str s)
  | .bool b => some (.bool b)
  | .null => some .null
  | .arr xs => some (.arr (jsonNormalizeArr xs))
  | .obj fs => some (.obj (jsonNormalizeFields fs))

def jsonNormalizeArr : List JSValue → List JSValue
  | [] => []
  | v :: rest => (jsonNormalize v).getD .null :: jsonNormalizeArr rest

def jsonNormalizeFields : List (String × JSValue) → List (String × JSValue)
  | [] => []
  | (k, v) :: rest =>
    match jsonNormalize v with
    | some v2 => (k, v2) :: jsonNormalizeFields rest
    | none => jsonNormalizeFields rest
end

/-- `sanitizeGeneratedObject` (decohere-build.ts): a plain object surviving a
JSON round trip. -/
def sanitizeGeneratedObject : JSValue → Option JSValue
  | .obj fs =>
    (match jsonNormalize (.obj fs) with
     | some (.obj fs2) => some (.obj fs2)
     | _ => none)
  | _ => none

def dedupStrs (xs : List String) : List String :=
  xs.foldl (fun acc v => if acc.contains v then acc else acc ++ [v]) []

mutual
/-- `valueSignature` (decohere-build.ts lines 1408-1421). -/
def valueSignature : JSValue → String
  | .arr xs =>
    "array<" ++
      String.intercalate "|" ((dedupStrs (valueSignatureList xs)).insertionSort (· ≤ ·)) ++ ">"
  | .null => "null"
  | .num _ => "number"
  | .str _ => "string"
  | .bool _ => "boolean"
  | .undef => "undefined"
  | .obj _ => "object"

def valueSignatureList : List JSValue → List String
  | [] => []
  | v :: rest => valueSignature v :: valueSignatureList rest
end

/-! ### Example-set augmentation (decohere-build.ts lines 1428-1559)

The single `openai.responses.create` call inside the function is counted; its
outcome is a parameter: `.error` models a thrown API error or a JSON parse
failure (both land in the surrounding catch), `.ok none` models empty output
text, and `.ok (some parsed)` a parsed `{numbers?, objects?}` payload (a
non-array field is the same as an absent one). -/

structure AugParsed where
  numbers : Option (List JSValue)
  objects : Option (List JSValue)

structure AugmentedExamples where
  numbers : List ℚ
  usage : List JSValue

def objKeys : JSValue → List String
  | .obj fs => fs.map (·.1)
  | _ => []

def objEntries : JSValue → List (String × JSValue)
  | .obj fs => fs
  | _ => []

/-- `augmentExampleSets`: dedups the example sets, returns them unchanged with
no oracle call when no API key is configured or both sets are empty, and
otherwise performs exactly one oracle call (counted in the second component),
merging in whatever consistent new examples the response yields. -/
def augmentExampleSets (augOracle : Except String (Option AugParsed)) (openaiOn : Bool)
    (numbers : List ℚ) (usageExamples : List JSValue) : AugmentedExamples × ℕ :=
  let dedupNumbers := dedupeNumberList numbers
  let dedupUsage := dedupeObjectList usageExamples
  if ¬openaiOn ∨ (dedupNumbers.isEmpty ∧ dedupUsage.isEmpty) then
    ({ numbers := dedupNumbers, usage := dedupUsage }, 0)
  else
    match augOracle with
    | .error _ => ({ numbers := dedupNumbers, usage := dedupUsage }, 1)
    | .ok none => ({ numbers := dedupNumbers, usage := dedupUsage }, 1)
    | .ok (some parsed) =>
      let allowedKeys := dedupUsage.foldl (fun acc ex =>
        (objKeys ex).foldl (fun acc k => if acc.contains k then acc else acc ++ [k]) acc) []
      let requiredKeys := match dedupUsage with
        | [] => []
        | first :: _ =>
          dedupUsage.foldl (fun req ex => req.filter (fun k => (objKeys ex).contains k))
            (objKeys first)
      let keyShapes := dedupUsage.foldl (fun m ex =>
        (objEntries ex).foldl (fun m kv =>
          let sig := valueSignature kv.2
          match objGet m kv.1 with
          | some sigs => if sigs.contains sig then m else objSet m kv.1 (sigs ++ [sig])
          | none => objSet m kv.1 [sig]) m) []
      let additionalNumbers := (parsed.numbers.getD []).filterMap (fun v =>
        match v with | .num q => some q | _ => none)
      let additionalObjectsRaw := (parsed.objects.getD []).filterMap sanitizeGeneratedObject
      let additionalObjects := additionalObjectsRaw.filter (fun obj =>
        if allowedKeys.length > 0 then
          (objKeys obj).all (fun k => allowedKeys.contains k) &&
          requiredKeys.all (fun k => (objKeys obj).contains k) &&
          (objEntries obj).all (fun kv =>
            match objGet keyShapes kv.1 with
            | some shapes => shapes.contains (valueSignature kv.2)
            | none => true)
        else true)
      ({ numbers := dedupeNumberList (dedupNumbers ++ additionalNumbers),
         usage := dedupeObjectList (dedupUsage ++ additionalObjects) }, 1)

/-! ### Cache materialization and the per-call pipeline (decohere-build.ts
`materializeFromCache`, `processFile` lines 2268-2430)

`CacheEntry` keeps the fields the modelled fragment reads; dependency
fingerprints and generated file paths are not consumed here.  The type-syntax
extraction that produces the component contexts and derived constraints is the
excluded collaborator; both arrive as parameters. -/

structure CacheEntry where
  typeText : String
  fingerprint : String
  model : Option String
  value : JSValue
  attempts : List AttemptRecord
  heuristics : Option (List HeuristicDefinition)

structure CachedMaterialization where
  entry : CacheEntry
  heuristics : List HeuristicDefinition
  heuristicConstraints : List Constraint

/-- `materializeFromCache`: a missing entry or a fingerprint mismatch is a
cache miss; a heuristic compile failure is caught and demoted to a miss; a
cached value failing validation is a miss; a throwing base-constraint test
propagates (`Except.error`). -/
def materializeFromCache (dynEnv : DynEnv) (hash : String → String)
    (cached : Option CacheEntry) (fingerprint : String)
    (baseConstraints : List Constraint) (reg : PredicateRegistry) (dirty : Bool) :
    Except String (Option CachedMaterialization) × PredicateRegistry × Bool :=
  match cached with
  | none => (.ok none, reg, dirty)
  | some entry =>
    if entry.fingerprint ≠ fingerprint then (.ok none, reg, dirty)
    else
      match compileHeuristics dynEnv hash reg dirty entry.heuristics with
      | (.error _, reg2, dirty2) => (.ok none, reg2, dirty2)
      | (.ok (heuristicConstraints, _), reg2, dirty2) =>
        match validateValue (baseConstraints ++ heuristicConstraints) entry.value with
        | .error msg => (.error msg, reg2, dirty2)
        | .ok vres =>
          if vres.isOkB then
            let cm : CachedMaterialization :=
              { entry := entry, heuristics := entry.heuristics.getD [],
                heuristicConstraints := heuristicConstraints }
            (.ok (some cm), reg2, dirty2)
          else (.ok none, reg2, dirty2)

structure ComponentContext where
  component : String
  numbers : List ℚ
  usage : List JSValue

structure ProcessOutcome where
  value : JSValue
  model : String
  fromCache : Bool

/-- Oracle calls made by the example-augmentation pass of `processFile`
(lines 2305-2322): one `augmentExampleSets` invocation per component context
that has examples while an API key is configured. -/
def augmentationPassCalls (openaiOn : Bool)
    (augOracle : String → Except String (Option AugParsed))
    (contexts : List ComponentContext) : ℕ :=
  contexts.foldl (fun n ctx =>
    if openaiOn ∧ (ctx.numbers.length > 0 ∨ ctx.usage.length > 0) then
      n + (augmentExampleSets (augOracle ctx.component) openaiOn ctx.numbers ctx.usage).2
    else n) 0

/-- The `Decohere<T>()` materialization pipeline of `processFile` for one call
site: the example-augmentation pass over the component contexts runs first
(its results feed the example caches and component type resolution, which no
claim observes), then the cache lookup, and only on a miss the synthesis loop.
Returns the outcome together with the number of augmentation oracle calls and
the number of synthesis (`callLLM`) oracle calls. -/
def processDecohere (dynEnv : DynEnv) (hash : String → String) (openaiOn : Bool)
    (augOracle : String → Except String (Option AugParsed))
    (contexts : List ComponentContext)
    (derivedConstraints : List Constraint)
    (cached : Option CacheEntry) (fingerprint typeText : String)
    (synthOracle : ℕ → String → Except String LLMResponseM)
    (maxAttempts : ℕ) (now : String)
    (reg : PredicateRegistry) (dirty : Bool) (log : AuditLog) :
    Except SynthErr ProcessOutcome × ℕ × ℕ :=
  let augCalls := augmentationPassCalls openaiOn augOracle contexts
  match materializeFromCache dynEnv hash cached fingerprint derivedConstraints reg dirty with
  | (.error msg, _, _) => (.error (.validationThrow msg), augCalls, 0)
  | (.ok (some cr), _, _) =>
    (.ok { value := cr.entry.value, model := cr.entry.model.getD "cache", fromCache := true },
     augCalls, 0)
  | (.ok none, reg2, dirty2) =>
    let cfg : SynthCfg :=
      { dynEnv, hash, openaiOn, typeText, maxAttempts, oracle := synthOracle, now }
    let existingConstraints := mergeConstraintSets derivedConstraints []
    let (res, _, synthCalls) := synthesizeValue cfg existingConstraints [] reg2 dirty2 log
    match res with
    | .error e => (.error e, augCalls, synthCalls)
    | .ok s =>
      (.ok { value := s.value, model := s.model, fromCache := false }, augCalls, synthCalls)

/-! ### Small helpers and concrete fixtures used by the theorems -/

def exceptIsOkB {ε α : Type} : Except ε α → Bool
  | .ok _ => true
  | .error _ => false

/-- A dynamic-compilation environment in which nothing compiles. -/
def dynEnvNone : DynEnv := fun _ => none

/-- A dynamic-compilation environment in which every source evaluates to a
function that accepts every value. -/
def dynEnvTrue : DynEnv := fun _ => some (fun _ => .ok true)

/-- A dynamic-compilation environment in which every source evaluates to a
function that throws on every call. -/
def dynEnvThrow : DynEnv := fun _ => some (fun _ => .error "boom at call time")

def hashId : String → String := fun s => s

/-- An oracle response carrying the infeasibility sentinel. -/
def infeasibleResponse : LLMResponseM :=
  { value := .null, heuristics := none, explanation := some "__INFEASIBLE__",
    candidateValidators := none }

/-- A plain oracle response whose value trivially validates when there are no
constraints. -/
def plainResponse : LLMResponseM :=
  { value := .num 2, heuristics := none, explanation := none,
    candidateValidators := none }

/-- Synthesis configuration whose oracle always reports infeasibility;
one-attempt budget. -/
def cfgInfeasible : SynthCfg :=
  { dynEnv := dynEnvNone, hash := hashId, openaiOn := false, typeText := "T",
    maxAttempts := 1, oracle := fun _ _ => .ok infeasibleResponse, now := "t0" }

/-- Synthesis configuration whose oracle raises on attempt 1 and would succeed
on attempt 2; two-attempt budget. -/
def cfgRaiseThenOk : SynthCfg :=
  { dynEnv := dynEnvNone, hash := hashId, openaiOn := false, typeText := "T",
    maxAttempts := 2,
    oracle := fun attempt _ => if attempt = 1 then .error "boom" else .ok plainResponse,
    now := "t0" }

/-- The initial loop state of `synthesizeValue` for given inputs. -/
def initSynthState (baseConstraints : List Constraint)
    (existingHeuristics : List HeuristicDefinition) (reg : PredicateRegistry)
    (dirty : Bool) (log : AuditLog) : SynthState :=
  { attempts := [], feedback := "", accumulatedConstraints := baseConstraints,
    accumulatedHeuristics := existingHeuristics, reg, dirty, log }

/-- A cached entry for bundle `Even` whose fingerprint is `fp`. -/
def entryEven : CacheEntry :=
  { typeText := "Even", fingerprint := "fp", model := some "gpt-4.1-mini",
    value := .num 2, attempts := [], heuristics := none }

/-- An augmentation oracle whose call throws. -/
def augOracleErr : String → Except String (Option AugParsed) := fun _ => .error "api error"

/-- A synthesis oracle that is never reachable in the scenarios using it. -/
def synthOracleUnused : ℕ → String → Except String LLMResponseM :=
  fun _ _ => .error "not called"

/-- A cache audit row for a bundle with no candidate-selection history. -/
def auditNoHistory : CacheAudit := ⟨"cache/dir/a.json", "TypeA", 1 / 2⟩

/-- A cache audit row for bundle `TypeB`. -/
def auditTypeB : CacheAudit := ⟨"cache/dir/b.json", "TypeB", 1 / 2⟩

/-- An audit log holding one 0.95-confidence candidate selection for `TypeB`. -/
def logTypeB95 : AuditLog :=
  { entries := [], predicateAudits := [],
    candidateAudits := [("TypeB",
      [{ attempt := 1, candidateRankings := [], selectedIndex := 0,
         selectedName := "c1", selectedScore := 95 / 100, confidence := 95 / 100,
         selectionReason := "test" }])],
    validationAudits := [] }

/-- A one-entry predicate-audit log fixture. -/
def logOnePredicate : AuditLog :=
  { entries := [], predicateAudits := [("pred_1",
      { predicateId := "pred_1", name := "isEven", discoveredAt := "t0",
        discoveredFrom := "EvenNumber", confidence := 9 / 10, usageCount := 1,
        lastUsedAt := some "t0", context := none })],
    candidateAudits := [], validationAudits := [] }

/-- Registry entry fixtures for the persistence theorems. -/
def regEntryA : PredicateRegistryEntry := ⟨"aaa", "isA", "descA", "(value) => true"⟩

def regEntryB : PredicateRegistryEntry := ⟨"bbb", "isB", "descB", "(value) => false"⟩

/-- A heuristic definition whose predicate compiles in `dynEnvTrue`. -/
def heurDefOk : HeuristicDefinition := ⟨"h", "d", "(value) => true"⟩

/-- A heuristic definition used with `dynEnvNone`, where nothing compiles. -/
def heurDefBad : HeuristicDefinition := ⟨"h", "d", "(value) => nope"⟩

/-! ## Claim theorems -/

/-- C8: for every candidate, the complexity score lies in the closed interval
[0.1, 1.0] — 1.0 below 50 source characters, 0.1 above 500, linear in
between — and under the default weights the total score equals
complexityScore·0.3 + coverageScore·0.4 + reusabilityScore·0.3. -/
theorem C8_scoring_bounds :
    (∀ src : String,
      1 / 10 ≤ calculateComplexityScore src ∧ calculateComplexityScore src ≤ 1) ∧
    (∀ src : String, src.length < 50 → calculateComplexityScore src = 1) ∧
    (∀ src : String, src.length > 500 → calculateComplexityScore src = 1 / 10) ∧
    (∀ (dynEnv : DynEnv) (candidate : HeuristicDefinition)
      (constraints : List Constraint) (testValues : List JSValue),
      (scoreCandidate dynEnv candidate constraints testValues defaultWeights).totalScore =
        (scoreCandidate dynEnv candidate constraints testValues
          defaultWeights).complexityScore * (3 / 10) +
        (scoreCandidate dynEnv candidate constraints testValues
          defaultWeights).coverageScore * (4 / 10) +
        (scoreCandidate dynEnv candidate constraints testValues
          defaultWeights).reusabilityScore * (3 / 10)) := by
  refine ⟨?_, ?_, ?_, ?_⟩
  · intro src
    unfold calculateComplexityScore
    split_ifs with h1 h2
    · constructor <;> norm_num
    · constructor <;> norm_num
    · have hx1 : (50 : ℚ) ≤ (src.length : ℚ) := by exact_mod_cast Nat.le_of_not_lt h1
      have hx2 : ((src.length : ℚ)) ≤ 500 := by exact_mod_cast Nat.le_of_not_lt h2
      constructor
      · nlinarith
      · nlinarith
  · intro src h
    unfold calculateComplexityScore
    rw [if_pos h]
  · intro src h
    unfold calculateComplexityScore
    rw [if_neg (by omega), if_pos h]
  · intro dynEnv candidate constraints testValues
    simp only [scoreCandidate, defaultWeights]

/-- C8 witness: the bounds and the piecewise values at concrete predicates. -/
theorem C8_scoring_bounds_witness :
    calculateComplexityScore "(x) => x > 0" = 1 ∧
    calculateComplexityScore (String.mk (List.replicate 501 'a')) = 1 / 10 := by
  constructor
  · exact C8_scoring_bounds.2.1 "(x) => x > 0" (by decide)
  · exact C8_scoring_bounds.2.2.1 (String.mk (List.replicate 501 'a')) (by decide)

/-- C9 counterexample: `typeof value === "number" && value > 0` is a boolean
combination (it contains `&&`) yet scores 0.85, because the
`typeof`-prefix branch fires first; the claimed bound of at most 0.5 fails. -/
theorem C9_reusability_counterexample :
    hasSubstr "&&".toList
      (lowerChars "typeof value === \"number\" && value > 0") = true ∧
    calculateReusabilityScore "typeof value === \"number\" && value > 0" = 85 / 100 ∧
    ¬ calculateReusabilityScore "typeof value === \"number\" && value > 0" ≤ 5 / 10 := by
  have hscore : calculateReusabilityScore "typeof value === \"number\" && value > 0" =
      85 / 100 := by
    unfold calculateReusabilityScore
    rw [if_neg (by decide), if_pos (by decide)]
  refine ⟨by decide, hscore, ?_⟩
  rw [hscore]
  norm_num

/-- C9 amended: a boolean-combination predicate source (containing `&&` or
`||`) scores exactly 0.5 — hence at most 0.5 — provided it does not match one
of the higher-priority patterns checked first (single anchored comparison,
`typeof`/`array.isarray` prefix, modulo prefix, or short `value`-comparison
form); sources matching an earlier pattern take that branch score instead. -/
theorem C9_reusability_amended (src : String)
    (hbool : (hasSubstr "&&".toList (lowerChars src) ||
      hasSubstr "||".toList (lowerChars src)) = true)
    (h1 : matchSingleCmp (lowerChars src) = false)
    (h2 : "typeof".toList.isPrefixOf (lowerChars src) = false)
    (h3 : "array.isarray".toList.isPrefixOf (lowerChars src) = false)
    (h4 : matchModuloPre (lowerChars src) = false)
    (h5 : (containsValueCmp (lowerChars src) &&
      decide ((lowerChars src).length < 100)) = false) :
    calculateReusabilityScore src = 5 / 10 := by
  unfold calculateReusabilityScore
  rw [if_neg (by rw [h1]; decide), if_neg (by rw [h2, h3]; decide),
    if_neg (by rw [h4]; decide), if_neg (by rw [h5]; decide), if_pos hbool]

/-- C9 amended witness at a concrete boolean-combination predicate. -/
theorem C9_reusability_amended_witness :
    calculateReusabilityScore "(x) => x > 0 && x < 100" = 5 / 10 :=
  C9_reusability_amended "(x) => x > 0 && x < 100" (by decide) (by decide)
    (by decide) (by decide) (by decide) (by decide)

/-- Compiling a heuristic list succeeds exactly when every effective predicate
source compiles in the dynamic environment. -/
theorem compileHeuristicsGo_isOk (dynEnv : DynEnv) (hash : String → String)
    (defs : List HeuristicDefinition) : ∀ (reg : PredicateRegistry) (dirty : Bool),
    exceptIsOkB (compileHeuristicsGo dynEnv hash defs reg dirty).1 = true ↔
      ∀ d ∈ defs, (dynEnv (jsTrim (effectiveSource d))).isSome = true := by
  induction defs with
  | nil =>
    intro reg dirty
    simp [compileHeuristicsGo, exceptIsOkB]
  | cons d rest ih =>
    intro reg dirty
    cases henv : dynEnv (jsTrim (effectiveSource d)) with
    | none =>
      constructor
      · intro h
        simp [compileHeuristicsGo, compilePredicateBuild, henv, exceptIsOkB] at h
      · intro h
        have hd := h d (List.mem_cons_self d rest)
        rw [henv] at hd
        simp at hd
    | some fn =>
      have hstep : compilePredicateBuild dynEnv (effectiveSource d) = .ok (wrapTest fn) := by
        simp [compilePredicateBuild, henv]
      rcases hreg : registerConstraintPredicate hash (heuristicConstraint (wrapTest fn) d)
        reg dirty with ⟨c, R2, D2⟩
      rcases hrec : compileHeuristicsGo dynEnv hash rest R2 D2 with ⟨res, reg3, dirty3⟩
      have ihr := ih R2 D2
      rw [hrec] at ihr
      simp only [compileHeuristicsGo, hstep, hreg, hrec]
      cases res with
      | error e =>
        simp only [exceptIsOkB] at ihr ⊢
        constructor
        · intro h
          cases h
        · intro h
          exfalso
          have hall : ∀ d2 ∈ rest, (dynEnv (jsTrim (effectiveSource d2))).isSome = true :=
            fun d2 hd2 => h d2 (List.mem_cons_of_mem d hd2)
          cases ihr.mpr hall
      | ok pair =>
        simp only [exceptIsOkB] at ihr ⊢
        constructor
        · intro _ d2 hd2
          rcases List.mem_cons.mp hd2 with h2 | h2
          · rw [h2, henv]; rfl
          · exact (ihr.mp trivial) d2 h2
        · intro _
          trivial

/-- A successful heuristic compilation drops nothing: the produced constraint
and normalized lists are exactly as long as the definition list. -/
theorem compileHeuristicsGo_lengths (dynEnv : DynEnv) (hash : String → String)
    (defs : List HeuristicDefinition) :
    ∀ (reg : PredicateRegistry) (dirty : Bool) (cs : List Constraint)
      (ns : List HeuristicDefinition) (reg3 : PredicateRegistry) (dirty3 : Bool),
    compileHeuristicsGo dynEnv hash defs reg dirty = (.ok (cs, ns), reg3, dirty3) →
    cs.length = defs.length ∧ ns.length = defs.length := by
  induction defs with
  | nil =>
    intro reg dirty cs ns reg3 dirty3 h
    simp only [compileHeuristicsGo, Prod.mk.injEq, Except.ok.injEq] at h
    obtain ⟨⟨hcs, hns⟩, -, -⟩ := h
    simp [← hcs, ← hns]
  | cons d rest ih =>
    intro reg dirty cs ns reg3 dirty3 h
    cases henv : dynEnv (jsTrim (effectiveSource d)) with
    | none =>
      simp [compileHeuristicsGo, compilePredicateBuild, henv] at h
    | some fn =>
      have hstep : compilePredicateBuild dynEnv (effectiveSource d) = .ok (wrapTest fn) := by
        simp [compilePredicateBuild, henv]
      rcases hreg : registerConstraintPredicate hash (heuristicConstraint (wrapTest fn) d)
        reg dirty with ⟨c, R2, D2⟩
      rcases hrec : compileHeuristicsGo dynEnv hash rest R2 D2 with ⟨res, rg3, dt3⟩
      simp only [compileHeuristicsGo, hstep, hreg, hrec] at h
      cases res with
      | error e => simp at h
      | ok pair =>
        rcases pair with ⟨cs2, ns2⟩
        simp only [Prod.mk.injEq, Except.ok.injEq] at h
        obtain ⟨⟨hcs, hns⟩, -, -⟩ := h
        have hlen := ih R2 D2 cs2 ns2 rg3 dt3 hrec
        constructor
        · rw [← hcs]; simp [hlen.1]
        · rw [← hns]; simp [hlen.2]

/-- C1 counterexample: an oracle-discovered heuristic whose predicate source
does not compile is not silently dropped — `compileHeuristics` propagates the
compile exception (`Except.error`) past its boundary instead of continuing
with the remaining constraint set. -/
theorem C1_compileHeuristics_counterexample :
    (compileHeuristics dynEnvNone hashId [] false (some [heurDefBad])).1 =
      Except.error "Failed to compile predicate: (value) => nope" := by
  rfl

/-- C1 amended: `compileHeuristics` succeeds exactly when every effective
predicate source compiles; any non-compiling definition makes the whole call
throw (the exception propagates past the `compileHeuristics` boundary — caught
only at the `materializeFromCache` call site, while in `synthesizeValue` it
aborts the synthesis), and on success no definition is dropped. -/
theorem C1_compileHeuristics_amended (dynEnv : DynEnv) (hash : String → String)
    (reg : PredicateRegistry) (dirty : Bool) (defs : List HeuristicDefinition) :
    (exceptIsOkB (compileHeuristics dynEnv hash reg dirty (some defs)).1 = true ↔
      ∀ d ∈ defs, (dynEnv (jsTrim (effectiveSource d))).isSome = true) ∧
    (∀ cs ns reg3 dirty3,
      compileHeuristics dynEnv hash reg dirty (some defs) = (.ok (cs, ns), reg3, dirty3) →
      cs.length = defs.length ∧ ns.length = defs.length) := by
  cases defs with
  | nil =>
    constructor
    · simp [compileHeuristics, exceptIsOkB]
    · intro cs ns reg3 dirty3 h
      simp only [compileHeuristics, List.isEmpty_nil, if_true, Prod.mk.injEq,
        Except.ok.injEq] at h
      obtain ⟨⟨hcs, hns⟩, -, -⟩ := h
      simp [← hcs, ← hns]
  | cons d rest =>
    constructor
    · simpa [compileHeuristics] using
        compileHeuristicsGo_isOk dynEnv hash (d :: rest) reg dirty
    · intro cs ns reg3 dirty3 h
      simp only [compileHeuristics, List.isEmpty_cons, if_false, Bool.false_eq_true] at h
      exact compileHeuristicsGo_lengths dynEnv hash (d :: rest) reg dirty cs ns reg3 dirty3 h

/-- C1 amended witness: a compiling heuristic list succeeds and keeps all
definitions; the concrete run produces one constraint from one definition. -/
theorem C1_compileHeuristics_amended_witness :
    exceptIsOkB (compileHeuristics dynEnvTrue hashId [] false (some [heurDefOk])).1 = true :=
  (C1_compileHeuristics_amended dynEnvTrue hashId [] false [heurDefOk]).1.mpr
    (by intro d hd; rw [List.mem_singleton] at hd; subst hd; rfl)

theorem objGet_objSet_self {α : Type} (m : List (String × α)) (k : String) (v : α) :
    objGet (objSet m k v) k = some v := by
  induction m with
  | nil => simp [objSet, objGet]
  | cons p rest ih =>
    by_cases hk : p.1 = k
    · rcases p with ⟨k2, v2⟩
      simp only at hk
      simp [objSet, hk, objGet]
    · rcases p with ⟨k2, v2⟩
      simp only at hk
      simp only [objSet, if_neg hk, objGet, List.find?] at ih ⊢
      rw [decide_eq_false hk]
      exact ih

/-- C7: rediscovering an already-recorded predicate never lowers the stored
confidence — it becomes the maximum of the old and new values — while
usageCount increments by exactly one and lastUsedAt is refreshed. -/
theorem C7_confidence_monotone (log : AuditLog)
    (now predicateId name discoveredFrom : String) (confidence : ℚ)
    (context : Option String) (p : PredicateAudit)
    (h : objGet log.predicateAudits predicateId = some p) :
    objGet (recordPredicateDiscovery log now predicateId name discoveredFrom confidence
        context).predicateAudits predicateId =
      some { p with
             usageCount := p.usageCount + 1, lastUsedAt := some now,
             confidence := max p.confidence confidence } ∧
    p.confidence ≤ max p.confidence confidence := by
  refine ⟨?_, le_max_left _ _⟩
  have hmax : (if confidence > p.confidence then confidence else p.confidence) =
      max p.confidence confidence := by
    rcases le_or_lt confidence p.confidence with hle | hlt
    · rw [if_neg (not_lt.mpr hle), max_eq_left hle]
    · rw [if_pos hlt, max_eq_right hlt.le]
  simp only [recordPredicateDiscovery, h, hmax]
  exact objGet_objSet_self _ _ _

/-- C7 witness: rediscovery with a lower confidence (0.5 after 0.9) keeps the
maximum and bumps the usage count. -/
theorem C7_confidence_monotone_witness :
    objGet (recordPredicateDiscovery logOnePredicate "t1" "pred_1" "isEven" "EvenNumber"
        (1 / 2) none).predicateAudits "pred_1" =
      some { predicateId := "pred_1", name := "isEven", discoveredAt := "t0",
             discoveredFrom := "EvenNumber", confidence := max (9 / 10) (1 / 2),
             usageCount := 2, lastUsedAt := some "t1", context := none } :=
  (C7_confidence_monotone logOnePredicate "t1" "pred_1" "isEven" "EvenNumber" (1 / 2) none
    { predicateId := "pred_1", name := "isEven", discoveredAt := "t0",
      discoveredFrom := "EvenNumber", confidence := 9 / 10, usageCount := 1,
      lastUsedAt := some "t0", context := none } rfl).1

/-- Error collection never signals an exception when every constraint test is
a try/catch-wrapped compiled predicate. -/
theorem collectErrors_isOk_of_wrapped (v : JSValue) (constraints : List Constraint) :
    ∀ (acc : List String),
    (∀ c ∈ constraints, ∃ fn, c.test = wrapTest fn) →
    exceptIsOkB (collectErrors v constraints acc) = true := by
  induction constraints with
  | nil => intro acc _; rfl
  | cons c rest ih =>
    intro acc h
    obtain ⟨fn, hfn⟩ := h c (List.mem_cons_self c rest)
    have hrest : ∀ c2 ∈ rest, ∃ fn2, c2.test = wrapTest fn2 :=
      fun c2 hc2 => h c2 (List.mem_cons_of_mem c hc2)
    simp only [collectErrors, hfn, wrapTest]
    exact ih _ hrest

/-- C10: every test produced by a successful `compilePredicate` is total at
evaluation time; an exception thrown by the raw compiled function is caught and
the test yields false; and `validateValue` over constraints built from
compiled predicates never throws during evaluation. -/
theorem C10_compiled_predicates_total :
    (∀ (dynEnv : DynEnv) (src : String) (f : TestFn),
      compilePredicateBuild dynEnv src = .ok f →
      ∀ v : JSValue, exceptIsOkB (f v) = true) ∧
    (∀ (fn : JSValue → Except String Bool) (v : JSValue) (e : String),
      fn v = .error e → wrapTest fn v = .ok false) ∧
    (∀ (constraints : List Constraint) (v : JSValue),
      (∀ c ∈ constraints, ∃ fn, c.test = wrapTest fn) →
      exceptIsOkB (validateValue constraints v) = true) := by
  refine ⟨?_, ?_, ?_⟩
  · intro dynEnv src f h v
    simp only [compilePredicateBuild] at h
    cases henv : dynEnv (jsTrim src) with
    | none => rw [henv] at h; cases h
    | some fn =>
      rw [henv] at h
      cases h
      rfl
  · intro fn v e h
    simp [wrapTest, h]
  · intro constraints v h
    have hc := collectErrors_isOk_of_wrapped v constraints [] h
    unfold validateValue
    cases hcol : collectErrors v constraints [] with
    | error e => rw [hcol] at hc; cases hc
    | ok errors => simp [hcol, exceptIsOkB]

/-- C10 witness: a compiled predicate whose raw function throws on every call
still evaluates totally to false, and validation over it does not throw. -/
theorem C10_compiled_predicates_total_witness :
    exceptIsOkB (wrapTest (fun _ => Except.error "boom at call time") JSValue.null) = true ∧
    wrapTest (fun _ => Except.error "boom at call time") JSValue.null = .ok false ∧
    exceptIsOkB (validateValue
      [heuristicConstraint (wrapTest (fun _ => Except.error "boom at call time")) heurDefBad]
      JSValue.null) = true := by
  refine ⟨?_, ?_, ?_⟩
  · exact C10_compiled_predicates_total.1 dynEnvThrow "p"
      (wrapTest (fun _ => Except.error "boom at call time")) rfl JSValue.null
  · exact C10_compiled_predicates_total.2.1 (fun _ => Except.error "boom at call time")
      JSValue.null "boom at call time" rfl
  · exact C10_compiled_predicates_total.2.2
      [heuristicConstraint (wrapTest (fun _ => Except.error "boom at call time")) heurDefBad]
      JSValue.null
      (by
        intro c hc
        rw [List.mem_singleton] at hc
        subst hc
        exact ⟨fun _ => Except.error "boom at call time", rfl⟩)

/-- C2 counterexample: the oracle raises on attempt 1 of a two-attempt budget
and would succeed on attempt 2, yet `synthesizeValue` propagates the exception
after exactly one oracle call instead of consuming the attempt, advancing
feedback and proceeding to the next attempt. -/
theorem C2_oracle_raise_counterexample :
    (synthesizeValue cfgRaiseThenOk [] [] [] false emptyAuditLog).1 =
      .error (.oracleError "boom") ∧
    (synthesizeValue cfgRaiseThenOk [] [] [] false emptyAuditLog).2.2 = 1 ∧
    exceptIsOkB (synthLoop cfgRaiseThenOk 2 1
      (initSynthState [] [] [] false emptyAuditLog)).1 = true := by
  refine ⟨rfl, rfl, rfl⟩

/-- C2 amended: an oracle raise (or empty response, which `callLLM` turns into
a raise) at any attempt propagates out of the loop immediately: the state is
unchanged, no feedback is advanced, no further attempt runs, and exactly the
one oracle call was made. -/
theorem C2_oracle_raise_amended (cfg : SynthCfg) (st : SynthState) (attempt fuel : ℕ)
    (e : String) (h : cfg.oracle attempt st.feedback = .error e) :
    synthLoop cfg attempt (fuel + 1) st = (.error (.oracleError e), st, 1) := by
  simp only [synthLoop, h]

/-- C2 amended witness at the concrete raising oracle. -/
theorem C2_oracle_raise_amended_witness :
    synthLoop cfgRaiseThenOk 1 2 (initSynthState [] [] [] false emptyAuditLog) =
      (.error (.oracleError "boom"), initSynthState [] [] [] false emptyAuditLog, 1) :=
  C2_oracle_raise_amended cfgRaiseThenOk (initSynthState [] [] [] false emptyAuditLog)
    1 1 "boom" rfl

theorem objGet_mapAppendAt {α : Type} (m : List (String × List α)) (k : String) (v : α) :
    objGet (mapAppendAt m k v) k = some ((objGet m k).getD [] ++ [v]) := by
  unfold mapAppendAt
  cases h : objGet m k with
  | some xs => simp [objGet_objSet_self]
  | none => simp [objGet_objSet_self]

/-- Recording a validation appends exactly one audit under the bundle key. -/
theorem getValidationAudits_record (log : AuditLog) (now typeText : String)
    (attempt : ℕ) (valid : Bool) (errors : Option (List String))
    (feedback : Option String) :
    getValidationAudits (recordValidation log now typeText attempt valid errors feedback)
        typeText =
      getValidationAudits log typeText ++ [⟨attempt, valid, errors, feedback⟩] := by
  unfold getValidationAudits recordValidation
  simp [objGet_mapAppendAt]

/-- C4 counterexample: a one-attempt run whose oracle reports the
infeasibility sentinel records a ValidationAudit with valid = false and errors
["Infeasible"], contradicting the claim that no failed validation is recorded
for such an attempt. -/
theorem C4_infeasible_counterexample :
    getValidationAudits
        (synthesizeValue cfgInfeasible [] [] [] false emptyAuditLog).2.1.log "T" =
      [{ attempt := 1, valid := false, errors := some ["Infeasible"],
         feedback := some "Constraint set appears infeasible" }] ∧
    ({ attempt := 1, valid := false, errors := some ["Infeasible"],
       feedback := some "Constraint set appears infeasible" : ValidationAudit }).valid
      = false := by
  exact ⟨rfl, rfl⟩

/-- C4 amended: on the infeasibility sentinel the attempt is logged, feedback
is redirected toward generalization and the loop continues with the next
attempt without running the validation step — but a ValidationAudit with
valid = false, errors ["Infeasible"] and feedback `Constraint set appears
infeasible` is recorded for the attempt. -/
theorem C4_infeasible_amended (cfg : SynthCfg) (st : SynthState) (attempt fuel : ℕ)
    (r : LLMResponseM) (hor : cfg.oracle attempt st.feedback = .ok r)
    (hinf : r.explanation = some "__INFEASIBLE__") :
    (synthLoop cfg attempt (fuel + 1) st =
      (let st2 : SynthState := { st with
        attempts := st.attempts ++ [⟨attempt,
          (if cfg.openaiOn then "gpt-4.1-mini" else "unknown"), st.feedback, r.explanation⟩],
        log := recordValidation st.log cfg.now cfg.typeText attempt false
          (some ["Infeasible"]) (some "Constraint set appears infeasible"),
        feedback := infeasibleFeedback }
      ((synthLoop cfg (attempt + 1) fuel st2).1,
       (synthLoop cfg (attempt + 1) fuel st2).2.1,
       (synthLoop cfg (attempt + 1) fuel st2).2.2 + 1))) ∧
    getValidationAudits (recordValidation st.log cfg.now cfg.typeText attempt false
        (some ["Infeasible"]) (some "Constraint set appears infeasible")) cfg.typeText =
      getValidationAudits st.log cfg.typeText ++
        [{ attempt := attempt, valid := false, errors := some ["Infeasible"],
           feedback := some "Constraint set appears infeasible" }] := by
  constructor
  · simp only [synthLoop, hor]
    rw [if_pos hinf]
  · exact getValidationAudits_record st.log cfg.now cfg.typeText attempt false
      (some ["Infeasible"]) (some "Constraint set appears infeasible")

/-- C4 amended witness at the concrete infeasible oracle run. -/
theorem C4_infeasible_amended_witness :
    getValidationAudits (recordValidation emptyAuditLog "t0" "T" 1 false
        (some ["Infeasible"]) (some "Constraint set appears infeasible")) "T" =
      [{ attempt := 1, valid := false, errors := some ["Infeasible"],
         feedback := some "Constraint set appears infeasible" }] :=
  (C4_infeasible_amended cfgInfeasible (initSynthState [] [] [] false emptyAuditLog)
    1 0 infeasibleResponse rfl rfl).2

/-- The regeneration-report loop characterized pointwise: the detail rows are
the per-entry classification in order, `highConfidencePreserved` counts the
entries whose latest selection confidence meets the high threshold, and
`entriesMarkedForRegeneration` counts the entries with no selection history or
a latest confidence below both thresholds. -/
theorem regenLoop_spec (log : AuditLog) (cT hT : ℚ) (audits : List CacheAudit) :
    (regenLoop log cT hT audits).1 = audits.map (regenDetailFor log cT hT) ∧
    (regenLoop log cT hT audits).2.2.2.1 = audits.countP (fun a =>
      match (getCandidateAudits log a.typeText).getLast? with
      | some l => decide (l.confidence ≥ hT)
      | none => false) ∧
    (regenLoop log cT hT audits).2.2.1 = audits.countP (fun a =>
      match (getCandidateAudits log a.typeText).getLast? with
      | some l => decide (¬ l.confidence ≥ hT ∧ ¬ l.confidence ≥ cT)
      | none => true) := by
  induction audits with
  | nil => exact ⟨rfl, rfl, rfl⟩
  | cons a rest ih =>
    rcases hrec : regenLoop log cT hT rest with ⟨details, preserved, regen, highConf, totalConf⟩
    rw [hrec] at ih
    obtain ⟨ih1, ih2, ih3⟩ := ih
    simp only at ih1 ih2 ih3
    cases hlast : (getCandidateAudits log a.typeText).getLast? with
    | some latest =>
      by_cases h1 : latest.confidence ≥ hT
      · refine ⟨?_, ?_, ?_⟩ <;>
          simp [regenLoop, hrec, hlast, h1, regenDetailFor, List.countP_cons, ih1, ih2, ih3]
      · by_cases h2 : latest.confidence ≥ cT
        · refine ⟨?_, ?_, ?_⟩ <;>
            simp [regenLoop, hrec, hlast, h1, h2, regenDetailFor, List.countP_cons,
              ih1, ih2, ih3]
        · have h1l := lt_of_not_ge h1
          have h2l := lt_of_not_ge h2
          refine ⟨?_, ?_, ?_⟩ <;>
            simp [regenLoop, hrec, hlast, h1, h2, h1l, h2l, regenDetailFor,
              List.countP_cons, ih1, ih2, ih3]
    | none =>
      refine ⟨?_, ?_, ?_⟩ <;>
        simp [regenLoop, hrec, hlast, regenDetailFor, List.countP_cons, ih1, ih2, ih3]

/-- C5 counterexample: an entry with no CandidateSelectionAudit is counted
under `entriesMarkedForRegeneration` but its detail row carries action
`unknown`, not `regenerate`. -/
theorem C5_regeneration_counterexample :
    (generateRegenerationReport emptyAuditLog (3 / 4) (9 / 10) [auditNoHistory]).details =
      [{ typeText := "TypeA", cacheKey := "a.json", action := .unknown,
         reason := "No candidate selection audit found", confidence := none }] ∧
    (generateRegenerationReport emptyAuditLog (3 / 4) (9 / 10)
      [auditNoHistory]).entriesMarkedForRegeneration = 1 ∧
    RegenAction.unknown ≠ RegenAction.regenerate := by
  refine ⟨rfl, rfl, by decide⟩

/-- C5 amended: an entry with no CandidateSelectionAudit for its bundle is
counted under `entriesMarkedForRegeneration` but its detail action is
`unknown` rather than `regenerate`; an entry whose most recent audit has
confidence at least the high threshold (0.90 by default) is marked `preserve`
and counted in `highConfidencePreserved`. -/
theorem C5_regeneration_amended (log : AuditLog) (cT hT : ℚ)
    (audits : List CacheAudit) :
    (generateRegenerationReport log cT hT audits).details =
      audits.map (regenDetailFor log cT hT) ∧
    (∀ a : CacheAudit, getCandidateAudits log a.typeText = [] →
      (regenDetailFor log cT hT a).action = .unknown) ∧
    (∀ (a : CacheAudit) (l : CandidateSelectionAudit),
      (getCandidateAudits log a.typeText).getLast? = some l →
      l.confidence ≥ hT → (regenDetailFor log cT hT a).action = .preserve) ∧
    (generateRegenerationReport log cT hT audits).highConfidencePreserved =
      audits.countP (fun a =>
        match (getCandidateAudits log a.typeText).getLast? with
        | some l => decide (l.confidence ≥ hT)
        | none => false) ∧
    (generateRegenerationReport log cT hT audits).entriesMarkedForRegeneration =
      audits.countP (fun a =>
        match (getCandidateAudits log a.typeText).getLast? with
        | some l => decide (¬ l.confidence ≥ hT ∧ ¬ l.confidence ≥ cT)
        | none => true) := by
  obtain ⟨hs1, hs2, hs3⟩ := regenLoop_spec log cT hT audits
  rcases hrec : regenLoop log cT hT audits with ⟨details, preserved, regen, highConf, totalConf⟩
  rw [hrec] at hs1 hs2 hs3
  simp only at hs1 hs2 hs3
  refine ⟨?_, ?_, ?_, ?_, ?_⟩
  · simp [generateRegenerationReport, hrec, hs1]
  · intro a h
    simp [regenDetailFor, h]
  · intro a l hlast hconf
    simp [regenDetailFor, hlast, hconf]
  · simp [generateRegenerationReport, hrec, hs2]
  · simp [generateRegenerationReport, hrec, hs3]

/-- C5 amended witness: the concrete no-history entry gets action `unknown`;
the concrete 0.95-confidence entry gets action `preserve` and is counted in
`highConfidencePreserved`. -/
theorem C5_regeneration_amended_witness :
    (regenDetailFor emptyAuditLog (3 / 4) (9 / 10) auditNoHistory).action =
      RegenAction.unknown ∧
    (regenDetailFor logTypeB95 (3 / 4) (9 / 10) auditTypeB).action =
      RegenAction.preserve ∧
    (generateRegenerationReport logTypeB95 (3 / 4) (9 / 10)
      [auditTypeB]).highConfidencePreserved = 1 := by
  refine ⟨?_, ?_, ?_⟩
  · exact (C5_regeneration_amended emptyAuditLog (3 / 4) (9 / 10) [auditNoHistory]).2.1
      auditNoHistory rfl
  · exact (C5_regeneration_amended logTypeB95 (3 / 4) (9 / 10) [auditTypeB]).2.2.1
      auditTypeB
      { attempt := 1, candidateRankings := [], selectedIndex := 0,
        selectedName := "c1", selectedScore := 95 / 100, confidence := 95 / 100,
        selectionReason := "test" }
      rfl (by norm_num)
  · rw [(C5_regeneration_amended logTypeB95 (3 / 4) (9 / 10) [auditTypeB]).2.2.2.1]
    have hlast : (getCandidateAudits logTypeB95 auditTypeB.typeText).getLast? =
        some { attempt := 1, candidateRankings := [], selectedIndex := 0,
               selectedName := "c1", selectedScore := 95 / 100, confidence := 95 / 100,
               selectionReason := "test" } := rfl
    simp [List.countP_cons, hlast]
    norm_num

theorem sortById_sorted (l : List PredicateRegistryEntry) :
    (sortById l).Sorted entryIdLe :=
  List.sorted_insertionSort entryIdLe l

theorem sortById_perm (l : List PredicateRegistryEntry) : (sortById l).Perm l :=
  List.perm_insertionSort entryIdLe l

/-- Sorting by id is a function of the entry multiset when ids are pairwise
distinct: two permutations sort to the same list. -/
theorem sortById_eq_of_perm (l₁ l₂ : List PredicateRegistryEntry)
    (hp : l₁.Perm l₂) (hd : l₁.Pairwise fun a b => a.id ≠ b.id) :
    sortById l₁ = sortById l₂ := by
  haveI : IsAntisymm PredicateRegistryEntry (fun a b => a.id < b.id) :=
    ⟨fun a b h1 h2 => absurd h2 (lt_asymm h1)⟩
  have hperm1 : (sortById l₁).Perm l₁ := sortById_perm l₁
  have hperm2 : (sortById l₂).Perm l₂ := sortById_perm l₂
  have hsymm : ∀ {x y : PredicateRegistryEntry}, x.id ≠ y.id → y.id ≠ x.id :=
    fun h => Ne.symm h
  have hd2 : l₂.Pairwise fun a b => a.id ≠ b.id :=
    (List.Perm.pairwise_iff hsymm hp).mp hd
  have hd1 : (sortById l₁).Pairwise fun a b => a.id ≠ b.id :=
    (List.Perm.pairwise_iff hsymm hperm1).mpr hd
  have hd2s : (sortById l₂).Pairwise fun a b => a.id ≠ b.id :=
    (List.Perm.pairwise_iff hsymm hperm2).mpr hd2
  have hlt1 : (sortById l₁).Sorted fun a b => a.id < b.id :=
    (sortById_sorted l₁).imp₂ (fun _ _ hle hne => lt_of_le_of_ne hle hne) hd1
  have hlt2 : (sortById l₂).Sorted fun a b => a.id < b.id :=
    (sortById_sorted l₂).imp₂ (fun _ _ hle hne => lt_of_le_of_ne hle hne) hd2s
  exact List.eq_of_perm_of_sorted (hperm1.trans (hp.trans hperm2.symm)) hlt1 hlt2

/-- C6: registry persistence is idempotent and deterministic — `persist()` of
a clean registry writes nothing; a dirty persist writes the entries ordered by
id and clears the dirty flag; and two persists of the same entry set (any two
id-distinct permutations) produce byte-identical registry output. -/
theorem C6_persist_deterministic :
    (∀ s : RegState, s.dirty = false → persistPredicateRegistry s = s) ∧
    (∀ s : RegState, s.dirty = true →
      (persistPredicateRegistry s).files.registryFile =
        some (renderEntries (sortById (objValues s.registry))) ∧
      (sortById (objValues s.registry)).Sorted entryIdLe ∧
      (persistPredicateRegistry s).dirty = false) ∧
    (∀ r₁ r₂ : PredicateRegistry, (objValues r₁).Perm (objValues r₂) →
      ((objValues r₁).Pairwise fun a b => a.id ≠ b.id) →
      writePredicateRegistryFile r₁ = writePredicateRegistryFile r₂) := by
  refine ⟨?_, ?_, ?_⟩
  · intro s h
    simp [persistPredicateRegistry, h]
  · intro s h
    refine ⟨?_, sortById_sorted _, ?_⟩ <;>
      simp [persistPredicateRegistry, h, writePredicateRegistryFile]
  · intro r₁ r₂ hp hd
    unfold writePredicateRegistryFile
    rw [sortById_eq_of_perm _ _ hp hd]

/-- C6 witness: a clean persist is the identity; a dirty persist writes the
sorted render; two orderings of the same two entries render identically. -/
theorem C6_persist_deterministic_witness :
    persistPredicateRegistry
        { registry := [], dirty := false, files := ⟨none, none⟩ } =
      { registry := [], dirty := false, files := ⟨none, none⟩ } ∧
    (persistPredicateRegistry
        { registry := [("aaa", regEntryA)], dirty := true, files := ⟨none, none⟩ }
      ).files.registryFile =
      some (renderEntries (sortById (objValues [("aaa", regEntryA)]))) ∧
    writePredicateRegistryFile [("aaa", regEntryA), ("bbb", regEntryB)] =
      writePredicateRegistryFile [("bbb", regEntryB), ("aaa", regEntryA)] := by
  refine ⟨?_, ?_, ?_⟩
  · exact C6_persist_deterministic.1 _ rfl
  · exact (C6_persist_deterministic.2.1 _ rfl).1
  · exact C6_persist_deterministic.2.2 [("aaa", regEntryA), ("bbb", regEntryB)]
      [("bbb", regEntryB), ("aaa", regEntryA)]
      (List.Perm.swap regEntryB regEntryA []) (by decide)

/-- C3 counterexample: a warm-cache second pass whose bundle has example
numbers and a configured API key returns the cached value with zero synthesis
calls, but still performs one augmentation oracle call — not the claimed zero
oracle calls. -/
theorem C3_cache_hit_counterexample :
    processDecohere dynEnvNone hashId true augOracleErr
        [{ component := "Even", numbers := [2], usage := [] }] []
        (some entryEven) "fp" "Even" synthOracleUnused 5 "t0" [] false emptyAuditLog =
      (.ok { value := .num 2, model := "gpt-4.1-mini", fromCache := true }, 1, 0) := by
  rfl

/-- C3 amended: on a cache hit (matching fingerprint, compiling cached
heuristics, cached value validating) the pipeline returns the cached value and
performs zero synthesis oracle calls; the example-augmentation pass, which
runs before the cache is consulted, still performs its oracle calls — one per
component context with examples when an API key is configured. -/
theorem C3_cache_hit_amended (dynEnv : DynEnv) (hash : String → String) (openaiOn : Bool)
    (augOracle : String → Except String (Option AugParsed))
    (contexts : List ComponentContext) (derived : List Constraint)
    (cached : Option CacheEntry) (fingerprint typeText : String)
    (synthOracle : ℕ → String → Except String LLMResponseM) (maxAttempts : ℕ)
    (now : String) (reg : PredicateRegistry) (dirty : Bool) (log : AuditLog)
    (cm : CachedMaterialization) (reg2 : PredicateRegistry) (dirty2 : Bool)
    (hhit : materializeFromCache dynEnv hash cached fingerprint derived reg dirty =
      (.ok (some cm), reg2, dirty2)) :
    processDecohere dynEnv hash openaiOn augOracle contexts derived cached fingerprint
        typeText synthOracle maxAttempts now reg dirty log =
      (.ok { value := cm.entry.value, model := cm.entry.model.getD "cache",
             fromCache := true },
       augmentationPassCalls openaiOn augOracle contexts, 0) := by
  simp only [processDecohere, hhit]

/-- C3 amended witness at a concrete cache hit with no component contexts. -/
theorem C3_cache_hit_amended_witness :
    processDecohere dynEnvNone hashId false augOracleErr [] [] (some entryEven) "fp"
        "Even" synthOracleUnused 5 "t0" [] false emptyAuditLog =
      (.ok { value := .num 2, model := "gpt-4.1-mini", fromCache := true },
       augmentationPassCalls false augOracleErr [], 0) :=
  C3_cache_hit_amended dynEnvNone hashId false augOracleErr [] [] (some entryEven) "fp"
    "Even" synthOracleUnused 5 "t0" [] false emptyAuditLog
    { entry := entryEven, heuristics := [], heuristicConstraints := [] } [] false rfl

end TsDecohere
